import Mathlib

/-!
# umapd: crypto toolkit and raw link-layer transport of the u1905 ucode modules

Shallow embedding of `src/u1905d/src/u1905/socket/raw.c` and
`src/u1905d/src/u1905/crypto.c`.

Conventions of the embedding:

* a byte is a `Fin 256`; a ucode string is a list of bytes;
* a C function returning `uc_value_t *` returns `Option UcValue`, `none` being `NULL`;
* libc and kernel calls are recorded, in order, in `World.trace`; what each call
  answers is an explicit argument (an outcome record), so every theorem
  quantifies over all answers the kernel can give;
* `errno` and the static `last_error` are fields of `World`;
* the library behind crypto.c is embedded by what it computes: AES-128 after
  FIPS 197, CBC chaining and the update / final calls with padding off, and the
  Diffie-Hellman derivation with its size query and stripped shared value;
  whether a library call finds its resources is again an explicit argument.
-/

namespace U1905

/-! ## Values of the host language -/

abbrev Byte := Fin 256

/-- Values of the ucode host language, as far as the two modules inspect them.
`null` is the C `NULL` pointer (an absent argument). -/
inductive UcValue where
  | null
  | boolean (b : Bool)
  | integer (n : Int)
  | string (s : List Byte)
  | array (items : List (List Byte))
  | resource (sock : Int) (ifidx : Nat)
  | other
  deriving DecidableEq, Repr

/-! ## raw.c: the world the socket module acts on -/

/-- Error number `EBADF` of `<errno.h>` (Linux). -/
def EBADF : Int := 9
/-- Error number `EINVAL` of `<errno.h>` (Linux). -/
def EINVAL : Int := 22

/-- Constant `ETH_P_1905`, raw.c line 31. -/
def ETH_P_1905 : Int := 0x893a
/-- Constant `ETH_P_LLDP` of `<linux/if_ether.h>`. -/
def ETH_P_LLDP : Int := 0x88cc
/-- Constant `ETH_ALEN` of `<linux/if_ether.h>`. -/
def ETH_ALEN : Nat := 6

/-- Membership kinds of `<linux/if_packet.h>` used by raw.c. -/
inductive MrType where
  | PACKET_MR_MULTICAST
  | PACKET_MR_PROMISC
  deriving DecidableEq, Repr

/-- Structure `struct packet_mreq`; `mr_address` is the 8-byte array of the kernel header. -/
structure packet_mreq where
  mr_ifindex : Nat
  mr_type : MrType
  mr_alen : Nat
  mr_address : List Byte
  deriving DecidableEq, Repr

/-- The libc / kernel calls raw.c makes, with the arguments it passes. -/
inductive Syscall where
  | socket (protocol : Nat)
  | fcntl_getfl (fd : Int)
  | fcntl_setfl_nonblock (fd : Int) (flags : Int)
  | setsockopt_reuseaddr (fd : Int)
  | if_nametoindex (name : List Byte)
  | bind (fd : Int) (protocol : Nat) (ifindex : Nat)
  | add_membership (fd : Int) (mr : packet_mreq)
  | sendto (fd : Int) (data : List Byte) (ifindex : Nat) (halen : Nat) (addr : List Byte)
  | recvfrom (fd : Int) (len : Nat)
  | close (fd : Int)
  deriving DecidableEq, Repr

/-- The static `last_error` of raw.c lines 36-39. -/
structure LastError where
  code : Int
  msg : Option String
  deriving DecidableEq, Repr

/-- The state the socket module acts on: `errno`, the error slot, and the calls
made so far, oldest first. -/
structure World where
  errno : Int
  last_error : LastError
  trace : List Syscall
  deriving DecidableEq, Repr

/-- What a libc call answers: its return value and the error number it stores
in `errno` when it fails. -/
structure KResult where
  ret : Int
  err : Int
  deriving DecidableEq, Repr

/-- A call that reports failure by returning -1: it is appended to the trace and
on failure its error number replaces `errno`. -/
def World.call (w : World) (c : Syscall) (r : KResult) : World :=
  { w with trace := w.trace ++ [c], errno := if r.ret = -1 then r.err else w.errno }

/-- The call `if_nametoindex`, which reports failure by returning 0. -/
def World.call_nametoindex (w : World) (name : List Byte) (idx : Nat) (err : Int) : World :=
  { w with trace := w.trace ++ [Syscall.if_nametoindex name],
           errno := if idx = 0 then err else w.errno }

/-- Structure `u1905_socket_t`, raw.c lines 43-46. -/
structure u1905_socket_t where
  sock : Int
  ifidx : Nat
  deriving DecidableEq, Repr

/-- Function `set_error`, raw.c lines 48-63. -/
def set_error (w : World) (errcode : Int) (fmt : Option String) : World :=
  { w with last_error := { code := errcode, msg := fmt } }

/-- What a method of the socket resource leaves behind: the world, the socket
structure behind `this`, and the returned value (`none` is `NULL`). -/
structure Ret where
  world : World
  sk : Option u1905_socket_t
  value : Option UcValue
  deriving DecidableEq, Repr

/-- Macro `err_return`, raw.c line 34. -/
def err_return (w : World) (sk : Option u1905_socket_t) (err : Int) (fmt : Option String) : Ret :=
  { world := set_error w err fmt, sk := sk, value := none }

/-- The bytes of a ucode string seen through `ucv_string_get` as a C string:
everything before the first NUL. -/
def cstr (s : List Byte) : List Byte := s.takeWhile (fun b => b != 0)

/-- Function `u1905_socket_fileno`, raw.c lines 93-102.  `sk = none` stands for
`uc_fn_this` yielding `NULL` or a pointer to `NULL`. -/
def u1905_socket_fileno (w : World) (sk : Option u1905_socket_t) : Ret :=
  match sk with
  | none => err_return w sk EBADF none
  | some s =>
    if s.sock = -1 then err_return w sk EBADF none
    else { world := w, sk := sk, value := some (UcValue.integer s.sock) }

/-- Function `u1905_socket_send`, raw.c lines 104-136.  `ether_aton` is the libc parser,
`out` what `sendto` answers. -/
def u1905_socket_send (ether_aton : List Byte → Option (List Byte)) (out : KResult)
    (w : World) (sk : Option u1905_socket_t) (dstmac buffer : UcValue) : Ret :=
  match sk with
  | none => err_return w sk EBADF none
  | some s =>
    if s.sock = -1 then err_return w sk EBADF none
    else
      match dstmac with
      | UcValue.string m =>
        match ether_aton (cstr m) with
        | none => err_return w sk EINVAL (some "Invalid destination MAC address")
        | some dst =>
          match buffer with
          | UcValue.string data =>
            let w1 := w.call (Syscall.sendto s.sock data s.ifidx ETH_ALEN (dst.take ETH_ALEN)) out
            if out.ret = -1 then
              err_return w1 sk w1.errno (some "Failed to send buffer contents")
            else { world := w1, sk := sk, value := some (UcValue.integer out.ret) }
          | _ => err_return w sk EINVAL (some "Invalid packet data argument")
      | _ => err_return w sk EINVAL (some "Invalid destination MAC address")

/-- What `recvfrom` answers on the non-blocking socket: a failure with its error
number, or a pending frame. -/
inductive RecvOutcome where
  | fail (err : Int)
  | frame (data : List Byte)
  deriving DecidableEq, Repr

/-- Function `u1905_socket_recv`, raw.c lines 138-163.  The kernel copies at most the
1518 requested bytes of the frame into the buffer and returns their number. -/
def u1905_socket_recv (out : RecvOutcome) (w : World) (sk : Option u1905_socket_t) : Ret :=
  match sk with
  | none => err_return w sk EBADF none
  | some s =>
    if s.sock = -1 then err_return w sk EBADF none
    else
      match out with
      | RecvOutcome.fail e =>
        let w1 := w.call (Syscall.recvfrom s.sock 1518) { ret := -1, err := e }
        err_return w1 sk w1.errno (some "Failed to receive buffer contents")
      | RecvOutcome.frame data =>
        let w1 := w.call (Syscall.recvfrom s.sock 1518)
          { ret := ((data.take 1518).length : Int), err := 0 }
        { world := w1, sk := sk, value := some (UcValue.string (data.take 1518)) }

/-- Function `u1905_socket_close`, raw.c lines 165-177.  The result of `close` is not
looked at by the code; `out` is what the kernel answers. -/
def u1905_socket_close (out : KResult) (w : World) (sk : Option u1905_socket_t) : Ret :=
  match sk with
  | none => err_return w sk EBADF none
  | some s =>
    if s.sock = -1 then err_return w sk EBADF none
    else
      { world := w.call (Syscall.close s.sock) out,
        sk := some { s with sock := -1 },
        value := some (UcValue.boolean true) }

/-- What the kernel answers to each call `u1905_socket` can make. -/
structure SocketEnv where
  socket : KResult
  getfl : KResult
  setfl : KResult
  reuseaddr : KResult
  ifindex : Nat
  ifindex_err : Int
  bind : KResult
  mcast : KResult
  promisc : KResult
  close : KResult
  deriving DecidableEq, Repr

/-- The cast `(int)ucv_int64_get(proto)`: the low 32 bits, read as signed. -/
def to_int (n : Int) : Int := (n + 2147483648) % 4294967296 - 2147483648

/-- Function `htons` on a little-endian host: the low 16 bits with the two bytes swapped. -/
def htons (pr : Int) : Nat :=
  let v := (pr % 65536).toNat
  (v % 256) * 256 + v / 256

/-- The multicast request of raw.c lines 238-244. -/
def mreq_multicast (pr : Int) (ifidx : Nat) : packet_mreq :=
  { mr_type := MrType.PACKET_MR_MULTICAST,
    mr_alen := ETH_ALEN,
    mr_ifindex := ifidx,
    mr_address :=
      if pr = ETH_P_LLDP then [0x01, 0x80, 0xC2, 0x00, 0x00, 0x0E, 0, 0]
      else [0x01, 0x80, 0xC2, 0x00, 0x00, 0x13, 0, 0] }

/-- The promiscuous request of raw.c lines 251-254. -/
def mreq_promisc (ifidx : Nat) : packet_mreq :=
  { mr_type := MrType.PACKET_MR_PROMISC,
    mr_ifindex := ifidx,
    mr_alen := 0,
    mr_address := [0, 0, 0, 0, 0, 0, 0, 0] }

/-- The failure exits of `u1905_socket` after the descriptor exists:
`close(sock); err_return(errno, msg)`. -/
def close_err_return (env : SocketEnv) (w : World) (sock : Int) (msg : String) :
    World × Option UcValue :=
  let w1 := w.call (Syscall.close sock) env.close
  (set_error w1 w1.errno (some msg), none)

/-- Lines 237-266 of `u1905_socket`: the memberships and the resource. -/
def u1905_socket_join (env : SocketEnv) (w : World) (sock : Int) (pr : Int) (ifidx : Nat) :
    World × Option UcValue :=
  if pr = ETH_P_1905 ∨ pr = ETH_P_LLDP then
    let w1 := w.call (Syscall.add_membership sock (mreq_multicast pr ifidx)) env.mcast
    if env.mcast.ret = -1 then
      close_err_return env w1 sock "Unable to add socket multicast membership"
    else
      let w2 := w1.call (Syscall.add_membership sock (mreq_promisc ifidx)) env.promisc
      if env.promisc.ret = -1 then
        close_err_return env w2 sock "Unable to enable promiscious mode"
      else (w2, some (UcValue.resource sock ifidx))
  else (w, some (UcValue.resource sock ifidx))

/-- Lines 201-235 of `u1905_socket`, followed by the memberships. -/
def u1905_socket_setup (env : SocketEnv) (w : World) (name : List Byte) (pr : Int) :
    World × Option UcValue :=
  let w1 := w.call (Syscall.socket (htons pr)) env.socket
  let sock := env.socket.ret
  if sock = -1 then
    (set_error w1 w1.errno (some "Unable to create raw packet socket"), none)
  else
    let w2 := w1.call (Syscall.fcntl_getfl sock) env.getfl
    let flags := env.getfl.ret
    let w3 := if flags = -1 then w2
      else w2.call (Syscall.fcntl_setfl_nonblock sock flags) env.setfl
    if flags = -1 ∨ env.setfl.ret = -1 then
      close_err_return env w3 sock "Unable to set socket flags"
    else
      let w4 := w3.call (Syscall.setsockopt_reuseaddr sock) env.reuseaddr
      if env.reuseaddr.ret = -1 then
        close_err_return env w4 sock "Unable to set SO_REUSEADDR socket option"
      else
        let w5 := w4.call_nametoindex (cstr name) env.ifindex env.ifindex_err
        let ifidx := env.ifindex
        if ifidx = 0 then
          close_err_return env w5 sock "Unable to resolve interface index"
        else
          let w6 := w5.call (Syscall.bind sock (htons pr) ifidx) env.bind
          if env.bind.ret = -1 then
            close_err_return env w6 sock "Unable to bind packet socket"
          else u1905_socket_join env w6 sock pr ifidx

/-- Function `ucv_int64_get` on an integer value: a value above `INT64_MAX`
(an unsigned 64-bit integer) is answered as `INT64_MAX`. -/
def ucv_int64_get (n : Int) : Int :=
  if 9223372036854775807 < n then 9223372036854775807 else n

/-- The protocol argument, raw.c lines 194-199: absent leaves `pr` at 0, an
integer is cast to `int`, anything else is rejected. -/
def proto_arg : UcValue → Option Int
  | UcValue.null => some 0
  | UcValue.integer n => some (to_int (ucv_int64_get n))
  | _ => none

/-- Function `u1905_socket`, raw.c lines 179-267. -/
def u1905_socket (env : SocketEnv) (w : World) (ifname proto : UcValue) :
    World × Option UcValue :=
  match ifname with
  | UcValue.string name =>
    match proto_arg proto with
    | none => (set_error w EINVAL (some "Invalid protocol argument"), none)
    | some pr => u1905_socket_setup env w name pr
  | _ => (set_error w EINVAL (some "Invalid ifname argument"), none)

/-- Function `free_sock`, raw.c lines 281-286: the finalizer closes whatever the
structure holds. -/
def free_sock (out : KResult) (w : World) (sk : u1905_socket_t) : World :=
  w.call (Syscall.close sk.sock) out

/-- The value of a hexadecimal digit, either case. -/
def hexval (b : Byte) : Option Nat :=
  if 48 ≤ b.val ∧ b.val ≤ 57 then some (b.val - 48)
  else if 97 ≤ b.val ∧ b.val ≤ 102 then some (b.val - 87)
  else if 65 ≤ b.val ∧ b.val ≤ 70 then some (b.val - 55)
  else none

/-- Function `isspace` in the C locale. -/
def is_space (b : Byte) : Bool :=
  b.val = 32 || (9 ≤ b.val && b.val ≤ 13)

/-- The loop of `ether_aton_r` of the GNU C library over the remaining `n`
groups: a group is one or two hexadecimal digits; groups are separated by a
colon; the last group ends at the end of the string or at white space, or
after its second digit. -/
def ether_aton_groups : Nat → List Byte → Option (List Byte)
  | 0, _ => some []
  | n + 1, s =>
    match s with
    | [] => none
    | c :: rest =>
      match hexval c with
      | none => none
      | some hi =>
        let last : Bool := n = 0
        let stop : Bool :=
          match rest with
          | [] => last
          | d :: _ => if last then is_space d else d.val = 58
        if stop then
          (ether_aton_groups n (rest.drop 1)).map (fun t => Fin.ofNat hi :: t)
        else
          match rest with
          | [] => none
          | d :: rest2 =>
            match hexval d with
            | none => none
            | some lo =>
              let sep_ok : Bool :=
                match rest2 with
                | [] => last
                | e :: _ => last || e.val = 58
              if sep_ok then
                (ether_aton_groups n (rest2.drop 1)).map (fun t => Fin.ofNat (hi * 16 + lo) :: t)
              else none

/-- Function `ether_aton` of the GNU C library: six groups. -/
def ether_aton_glibc (s : List Byte) : Option (List Byte) := ether_aton_groups 6 s

/-! ## raw.c: vocabulary of the properties -/

/-- The calls made between world `w` and a later world `w1`. -/
def new_calls (w w1 : World) : List Syscall := w1.trace.drop w.trace.length

/-- The descriptors closed by a list of calls, in order. -/
def closed_fds : List Syscall → List Int
  | [] => []
  | Syscall.close fd :: rest => fd :: closed_fds rest
  | _ :: rest => closed_fds rest

/-- The membership requests among a list of calls, in order. -/
def memberships : List Syscall → List packet_mreq
  | [] => []
  | Syscall.add_membership _ mr :: rest => mr :: memberships rest
  | _ :: rest => memberships rest

/-- The transmissions among a list of calls. -/
def sendto_calls : List Syscall → List Syscall
  | [] => []
  | Syscall.sendto fd d i h a :: rest => Syscall.sendto fd d i h a :: sendto_calls rest
  | _ :: rest => sendto_calls rest

/-- The outcome of a method on a closed handle: `NULL`, `EBADF` without message
in the error slot, no call made, `errno` and the socket structure untouched. -/
def fails_closed (w : World) (s : u1905_socket_t) (r : Ret) : Prop :=
  r.value = none ∧ r.world.last_error = { code := EBADF, msg := none } ∧
  r.world.trace = w.trace ∧ r.world.errno = w.errno ∧ r.sk = some s

/-- A destination argument `send` rejects: not a string, or a string the libc
parser returns `NULL` for. -/
def malformed_mac (ether_aton : List Byte → Option (List Byte)) : UcValue → Prop
  | UcValue.string m => ether_aton (cstr m) = none
  | _ => True

/-- Every setup step of `u1905_socket` after `socket()` succeeded. -/
def setup_ok (env : SocketEnv) (pr : Int) : Prop :=
  env.getfl.ret ≠ -1 ∧ env.setfl.ret ≠ -1 ∧ env.reuseaddr.ret ≠ -1 ∧ env.ifindex ≠ 0 ∧
  env.bind.ret ≠ -1 ∧
  ((pr = ETH_P_1905 ∨ pr = ETH_P_LLDP) → env.mcast.ret ≠ -1 ∧ env.promisc.ret ≠ -1)

instance (env : SocketEnv) (pr : Int) : Decidable (setup_ok env pr) := by
  unfold setup_ok; infer_instance

/-- The kernel answers of a run in which every call succeeds: descriptor 7,
flags 2, interface index 3. -/
def env_all_ok : SocketEnv :=
  { socket := { ret := 7, err := 0 }, getfl := { ret := 2, err := 0 },
    setfl := { ret := 0, err := 0 }, reuseaddr := { ret := 0, err := 0 },
    ifindex := 3, ifindex_err := 0, bind := { ret := 0, err := 0 },
    mcast := { ret := 0, err := 0 }, promisc := { ret := 0, err := 0 },
    close := { ret := 0, err := 0 } }

/-- A world in which nothing has happened yet. -/
def world0 : World := { errno := 0, last_error := { code := 0, msg := none }, trace := [] }

/-! ## crypto.c: AES-128 (FIPS 197), the block cipher behind "AES-128-CBC" -/

/-- Multiplication by x in GF(2^8) modulo x^8 + x^4 + x^3 + x + 1. -/
def xtime (b : Byte) : Byte :=
  Fin.ofNat (if b.val < 128 then 2 * b.val else (2 * b.val) ^^^ 0x11b)

def gmul3 (b : Byte) : Byte := xtime b ^^^ b
def gmul9 (b : Byte) : Byte := xtime (xtime (xtime b)) ^^^ b
def gmul11 (b : Byte) : Byte := xtime (xtime (xtime b)) ^^^ xtime b ^^^ b
def gmul13 (b : Byte) : Byte := xtime (xtime (xtime b)) ^^^ xtime (xtime b) ^^^ b
def gmul14 (b : Byte) : Byte := xtime (xtime (xtime b)) ^^^ xtime (xtime b) ^^^ xtime b

/-- The S-box of FIPS 197, figure 7. -/
def sbox_table : List Byte :=
  [0x63, 0x7c, 0x77, 0x7b, 0xf2, 0x6b, 0x6f, 0xc5, 0x30, 0x01, 0x67, 0x2b, 0xfe, 0xd7, 0xab, 0x76,
   0xca, 0x82, 0xc9, 0x7d, 0xfa, 0x59, 0x47, 0xf0, 0xad, 0xd4, 0xa2, 0xaf, 0x9c, 0xa4, 0x72, 0xc0,
   0xb7, 0xfd, 0x93, 0x26, 0x36, 0x3f, 0xf7, 0xcc, 0x34, 0xa5, 0xe5, 0xf1, 0x71, 0xd8, 0x31, 0x15,
   0x04, 0xc7, 0x23, 0xc3, 0x18, 0x96, 0x05, 0x9a, 0x07, 0x12, 0x80, 0xe2, 0xeb, 0x27, 0xb2, 0x75,
   0x09, 0x83, 0x2c, 0x1a, 0x1b, 0x6e, 0x5a, 0xa0, 0x52, 0x3b, 0xd6, 0xb3, 0x29, 0xe3, 0x2f, 0x84,
   0x53, 0xd1, 0x00, 0xed, 0x20, 0xfc, 0xb1, 0x5b, 0x6a, 0xcb, 0xbe, 0x39, 0x4a, 0x4c, 0x58, 0xcf,
   0xd0, 0xef, 0xaa, 0xfb, 0x43, 0x4d, 0x33, 0x85, 0x45, 0xf9, 0x02, 0x7f, 0x50, 0x3c, 0x9f, 0xa8,
   0x51, 0xa3, 0x40, 0x8f, 0x92, 0x9d, 0x38, 0xf5, 0xbc, 0xb6, 0xda, 0x21, 0x10, 0xff, 0xf3, 0xd2,
   0xcd, 0x0c, 0x13, 0xec, 0x5f, 0x97, 0x44, 0x17, 0xc4, 0xa7, 0x7e, 0x3d, 0x64, 0x5d, 0x19, 0x73,
   0x60, 0x81, 0x4f, 0xdc, 0x22, 0x2a, 0x90, 0x88, 0x46, 0xee, 0xb8, 0x14, 0xde, 0x5e, 0x0b, 0xdb,
   0xe0, 0x32, 0x3a, 0x0a, 0x49, 0x06, 0x24, 0x5c, 0xc2, 0xd3, 0xac, 0x62, 0x91, 0x95, 0xe4, 0x79,
   0xe7, 0xc8, 0x37, 0x6d, 0x8d, 0xd5, 0x4e, 0xa9, 0x6c, 0x56, 0xf4, 0xea, 0x65, 0x7a, 0xae, 0x08,
   0xba, 0x78, 0x25, 0x2e, 0x1c, 0xa6, 0xb4, 0xc6, 0xe8, 0xdd, 0x74, 0x1f, 0x4b, 0xbd, 0x8b, 0x8a,
   0x70, 0x3e, 0xb5, 0x66, 0x48, 0x03, 0xf6, 0x0e, 0x61, 0x35, 0x57, 0xb9, 0x86, 0xc1, 0x1d, 0x9e,
   0xe1, 0xf8, 0x98, 0x11, 0x69, 0xd9, 0x8e, 0x94, 0x9b, 0x1e, 0x87, 0xe9, 0xce, 0x55, 0x28, 0xdf,
   0x8c, 0xa1, 0x89, 0x0d, 0xbf, 0xe6, 0x42, 0x68, 0x41, 0x99, 0x2d, 0x0f, 0xb0, 0x54, 0xbb, 0x16]

/-- The inverse S-box of FIPS 197, figure 14. -/
def inv_sbox_table : List Byte :=
  [0x52, 0x09, 0x6a, 0xd5, 0x30, 0x36, 0xa5, 0x38, 0xbf, 0x40, 0xa3, 0x9e, 0x81, 0xf3, 0xd7, 0xfb,
   0x7c, 0xe3, 0x39, 0x82, 0x9b, 0x2f, 0xff, 0x87, 0x34, 0x8e, 0x43, 0x44, 0xc4, 0xde, 0xe9, 0xcb,
   0x54, 0x7b, 0x94, 0x32, 0xa6, 0xc2, 0x23, 0x3d, 0xee, 0x4c, 0x95, 0x0b, 0x42, 0xfa, 0xc3, 0x4e,
   0x08, 0x2e, 0xa1, 0x66, 0x28, 0xd9, 0x24, 0xb2, 0x76, 0x5b, 0xa2, 0x49, 0x6d, 0x8b, 0xd1, 0x25,
   0x72, 0xf8, 0xf6, 0x64, 0x86, 0x68, 0x98, 0x16, 0xd4, 0xa4, 0x5c, 0xcc, 0x5d, 0x65, 0xb6, 0x92,
   0x6c, 0x70, 0x48, 0x50, 0xfd, 0xed, 0xb9, 0xda, 0x5e, 0x15, 0x46, 0x57, 0xa7, 0x8d, 0x9d, 0x84,
   0x90, 0xd8, 0xab, 0x00, 0x8c, 0xbc, 0xd3, 0x0a, 0xf7, 0xe4, 0x58, 0x05, 0xb8, 0xb3, 0x45, 0x06,
   0xd0, 0x2c, 0x1e, 0x8f, 0xca, 0x3f, 0x0f, 0x02, 0xc1, 0xaf, 0xbd, 0x03, 0x01, 0x13, 0x8a, 0x6b,
   0x3a, 0x91, 0x11, 0x41, 0x4f, 0x67, 0xdc, 0xea, 0x97, 0xf2, 0xcf, 0xce, 0xf0, 0xb4, 0xe6, 0x73,
   0x96, 0xac, 0x74, 0x22, 0xe7, 0xad, 0x35, 0x85, 0xe2, 0xf9, 0x37, 0xe8, 0x1c, 0x75, 0xdf, 0x6e,
   0x47, 0xf1, 0x1a, 0x71, 0x1d, 0x29, 0xc5, 0x89, 0x6f, 0xb7, 0x62, 0x0e, 0xaa, 0x18, 0xbe, 0x1b,
   0xfc, 0x56, 0x3e, 0x4b, 0xc6, 0xd2, 0x79, 0x20, 0x9a, 0xdb, 0xc0, 0xfe, 0x78, 0xcd, 0x5a, 0xf4,
   0x1f, 0xdd, 0xa8, 0x33, 0x88, 0x07, 0xc7, 0x31, 0xb1, 0x12, 0x10, 0x59, 0x27, 0x80, 0xec, 0x5f,
   0x60, 0x51, 0x7f, 0xa9, 0x19, 0xb5, 0x4a, 0x0d, 0x2d, 0xe5, 0x7a, 0x9f, 0x93, 0xc9, 0x9c, 0xef,
   0xa0, 0xe0, 0x3b, 0x4d, 0xae, 0x2a, 0xf5, 0xb0, 0xc8, 0xeb, 0xbb, 0x3c, 0x83, 0x53, 0x99, 0x61,
   0x17, 0x2b, 0x04, 0x7e, 0xba, 0x77, 0xd6, 0x26, 0xe1, 0x69, 0x14, 0x63, 0x55, 0x21, 0x0c, 0x7d]

def sub_byte (b : Byte) : Byte := sbox_table.getD b.val 0
def inv_sub_byte (b : Byte) : Byte := inv_sbox_table.getD b.val 0

def xor_bytes (a b : List Byte) : List Byte := List.zipWith (fun x y => x ^^^ y) a b

def sub_bytes (s : List Byte) : List Byte := s.map sub_byte
def inv_sub_bytes (s : List Byte) : List Byte := s.map inv_sub_byte

/-- The state is held column by column: byte `r + 4 * c` is row `r` of column `c`. -/
def shift_rows (s : List Byte) : List Byte :=
  [0, 5, 10, 15, 4, 9, 14, 3, 8, 13, 2, 7, 12, 1, 6, 11].map (fun i => s.getD i 0)

def inv_shift_rows (s : List Byte) : List Byte :=
  [0, 13, 10, 7, 4, 1, 14, 11, 8, 5, 2, 15, 12, 9, 6, 3].map (fun i => s.getD i 0)

def mix_column (a b c d : Byte) : List Byte :=
  [xtime a ^^^ gmul3 b ^^^ c ^^^ d,
   a ^^^ xtime b ^^^ gmul3 c ^^^ d,
   a ^^^ b ^^^ xtime c ^^^ gmul3 d,
   gmul3 a ^^^ b ^^^ c ^^^ xtime d]

def inv_mix_column (a b c d : Byte) : List Byte :=
  [gmul14 a ^^^ gmul11 b ^^^ gmul13 c ^^^ gmul9 d,
   gmul9 a ^^^ gmul14 b ^^^ gmul11 c ^^^ gmul13 d,
   gmul13 a ^^^ gmul9 b ^^^ gmul14 c ^^^ gmul11 d,
   gmul11 a ^^^ gmul13 b ^^^ gmul9 c ^^^ gmul14 d]

def mix_columns (s : List Byte) : List Byte :=
  [0, 4, 8, 12].flatMap (fun i =>
    mix_column (s.getD i 0) (s.getD (i + 1) 0) (s.getD (i + 2) 0) (s.getD (i + 3) 0))

def inv_mix_columns (s : List Byte) : List Byte :=
  [0, 4, 8, 12].flatMap (fun i =>
    inv_mix_column (s.getD i 0) (s.getD (i + 1) 0) (s.getD (i + 2) 0) (s.getD (i + 3) 0))

/-- One step of the key expansion of FIPS 197, section 5.2: the next round key
from the previous one and the round constant. -/
def next_round_key (rcon : Byte) (k : List Byte) : List Byte :=
  let g : List Byte :=
    [sub_byte (k.getD 13 0) ^^^ rcon, sub_byte (k.getD 14 0), sub_byte (k.getD 15 0),
     sub_byte (k.getD 12 0)]
  let w0 := xor_bytes (k.take 4) g
  let w1 := xor_bytes ((k.drop 4).take 4) w0
  let w2 := xor_bytes ((k.drop 8).take 4) w1
  let w3 := xor_bytes ((k.drop 12).take 4) w2
  w0 ++ w1 ++ w2 ++ w3

/-- The round keys that follow `k`, one for each round constant. -/
def expand_from (k : List Byte) : List Byte → List (List Byte)
  | [] => []
  | rc :: rest => next_round_key rc k :: expand_from (next_round_key rc k) rest

/-- The eleven round keys of AES-128. -/
def key_expansion (key : List Byte) : List (List Byte) :=
  key :: expand_from key [0x01, 0x02, 0x04, 0x08, 0x10, 0x20, 0x40, 0x80, 0x1b, 0x36]

/-- The rounds after the initial key addition: every round but the last mixes
the columns. -/
def enc_rounds : List (List Byte) → List Byte → List Byte
  | [], s => s
  | [k], s => xor_bytes (shift_rows (sub_bytes s)) k
  | k :: k1 :: ks, s =>
    enc_rounds (k1 :: ks) (xor_bytes (mix_columns (shift_rows (sub_bytes s))) k)

/-- The inverse rounds, undone from the last round key back to the first. -/
def dec_rounds : List (List Byte) → List Byte → List Byte
  | [], s => s
  | [k], s => inv_sub_bytes (inv_shift_rows (xor_bytes s k))
  | k :: k1 :: ks, s =>
    inv_sub_bytes (inv_shift_rows (inv_mix_columns (xor_bytes (dec_rounds (k1 :: ks) s) k)))

/-- The cipher of FIPS 197, section 5.1, on one 16-byte block. -/
def aes_encrypt_block (rks : List (List Byte)) (block : List Byte) : List Byte :=
  match rks with
  | [] => block
  | k0 :: ks => enc_rounds ks (xor_bytes block k0)

/-- The inverse cipher of FIPS 197, section 5.3, on one 16-byte block. -/
def aes_decrypt_block (rks : List (List Byte)) (block : List Byte) : List Byte :=
  match rks with
  | [] => block
  | k0 :: ks => xor_bytes (dec_rounds ks block) k0

/-! ## crypto.c: the EVP cipher calls, for "AES-128-CBC" with padding switched off -/

/-- What the library answers where the cipher calls of crypto.c can fail, and
the memory that follows the key and IV strings (a ucode string is followed by
a NUL, then by whatever the heap holds). -/
structure EvpEnv where
  fetch_ok : Bool
  ctx_ok : Bool
  init_ok : Bool
  after_key : List Byte
  after_iv : List Byte
  deriving DecidableEq, Repr

/-- The `n` bytes the library reads through a pointer to the ucode string `s`. -/
def read_bytes (n : Nat) (s beyond : List Byte) : List Byte :=
  ((s ++ 0 :: beyond) ++ List.replicate n 0).take n

/-- The cipher context: round keys, chaining block, and the input bytes held
back until they form a whole block. -/
structure EVP_CIPHER_CTX where
  rks : List (List Byte)
  iv : List Byte
  buf : List Byte
  deriving DecidableEq, Repr

/-- Function `EVP_EncryptInit_ex2` / `EVP_DecryptInit_ex2` for AES-128-CBC: 16 bytes are
read through the key pointer and, unless the IV pointer is `NULL`, 16 through
the IV pointer; without an IV the chaining block of the fresh context is zero. -/
def EVP_CipherInit (env : EvpEnv) (key : List Byte) (iv : Option (List Byte)) : EVP_CIPHER_CTX :=
  { rks := key_expansion (read_bytes 16 key env.after_key),
    iv := match iv with
      | none => List.replicate 16 0
      | some v => read_bytes 16 v env.after_iv,
    buf := [] }

/-- CBC encryption of the first `n` blocks of `inp` with chaining block `chain`. -/
def cbc_enc_blocks (rks : List (List Byte)) : Nat → List Byte → List Byte → List Byte
  | 0, _, _ => []
  | n + 1, chain, inp =>
    let c := aes_encrypt_block rks (xor_bytes (inp.take 16) chain)
    c ++ cbc_enc_blocks rks n c (inp.drop 16)

/-- CBC decryption of the first `n` blocks of `inp` with chaining block `chain`. -/
def cbc_dec_blocks (rks : List (List Byte)) : Nat → List Byte → List Byte → List Byte
  | 0, _, _ => []
  | n + 1, chain, inp =>
    xor_bytes (aes_decrypt_block rks (inp.take 16)) chain
      ++ cbc_dec_blocks rks n (inp.take 16) (inp.drop 16)

/-- The last 16-byte block of `out`, or `chain` when `out` is empty. -/
def last_block (chain out : List Byte) : List Byte :=
  if out.length < 16 then chain else out.drop (out.length - 16)

/-- Function `EVP_EncryptUpdate`: every whole block of held-back plus new input is
encrypted and stored through `out`; the remainder, fewer than 16 bytes, is held
back. Returns the context and the bytes stored. -/
def EVP_EncryptUpdate (ctx : EVP_CIPHER_CTX) (inp : List Byte) : EVP_CIPHER_CTX × List Byte :=
  let data := ctx.buf ++ inp
  let n := data.length / 16
  let out := cbc_enc_blocks ctx.rks n ctx.iv data
  ({ ctx with iv := last_block ctx.iv out, buf := data.drop (16 * n) }, out)

/-- Function `EVP_DecryptUpdate` with padding off: no block is held back. -/
def EVP_DecryptUpdate (ctx : EVP_CIPHER_CTX) (inp : List Byte) : EVP_CIPHER_CTX × List Byte :=
  let data := ctx.buf ++ inp
  let n := data.length / 16
  let out := cbc_dec_blocks ctx.rks n ctx.iv data
  ({ ctx with iv := last_block ctx.iv (data.take (16 * n)), buf := data.drop (16 * n) }, out)

/-- Function `EVP_EncryptFinal_ex` / `EVP_DecryptFinal_ex` with padding off: nothing is
stored; the call fails when bytes are still held back. -/
def EVP_CipherFinal_ex (ctx : EVP_CIPHER_CTX) : Option (List Byte) :=
  if ctx.buf.length = 0 then some [] else none

/-- What a cipher function of crypto.c does with its 128-byte stack array:
`ret stored value` when the update call stored `stored` inside the array and
the function returned `value` (`none` is `NULL`); `overflow stored` when the
update call stored more than 128 bytes, past the end of the array. -/
inductive AesRet where
  | ret (stored : List Byte) (value : Option UcValue)
  | overflow (stored : List Byte)
  deriving DecidableEq, Repr

/-- The IV argument, crypto.c lines 79 and 86: absent gives a `NULL` pointer, a
string its bytes, anything else is rejected. -/
def iv_arg : UcValue → Option (Option (List Byte))
  | UcValue.null => some none
  | UcValue.string v => some (some v)
  | _ => none

/-- Function `uc_crypto_aes_encrypt`, crypto.c lines 67-103. -/
def uc_crypto_aes_encrypt (env : EvpEnv) (key iv text : UcValue) : AesRet :=
  match key, text, iv_arg iv with
  | UcValue.string k, UcValue.string t, some ivp =>
    if ¬ env.fetch_ok then AesRet.ret [] none
    else if ¬ env.ctx_ok then AesRet.ret [] none
    else if ¬ env.init_ok then AesRet.ret [] none
    else
      let ctx := EVP_CipherInit env k ivp
      let upd := EVP_EncryptUpdate ctx t
      if 128 < upd.2.length then AesRet.overflow upd.2
      else
        match EVP_CipherFinal_ex upd.1 with
        | none => AesRet.ret upd.2 none
        | some fin =>
          AesRet.ret (upd.2 ++ fin)
            (some (UcValue.string ((upd.2 ++ fin).take (upd.2.length + fin.length))))
  | _, _, _ => AesRet.ret [] none

/-- Function `uc_crypto_aes_decrypt`, crypto.c lines 105-141. -/
def uc_crypto_aes_decrypt (env : EvpEnv) (key iv encr : UcValue) : AesRet :=
  match key, encr, iv_arg iv with
  | UcValue.string k, UcValue.string e, some ivp =>
    if ¬ env.fetch_ok then AesRet.ret [] none
    else if ¬ env.ctx_ok then AesRet.ret [] none
    else if ¬ env.init_ok then AesRet.ret [] none
    else
      let ctx := EVP_CipherInit env k ivp
      let upd := EVP_DecryptUpdate ctx e
      if 128 < upd.2.length then AesRet.overflow upd.2
      else
        match EVP_CipherFinal_ex upd.1 with
        | none => AesRet.ret upd.2 none
        | some fin =>
          AesRet.ret (upd.2 ++ fin)
            (some (UcValue.string ((upd.2 ++ fin).take (upd.2.length + fin.length))))
  | _, _, _ => AesRet.ret [] none

/-- A library in which every call finds its resources; nothing but zeros
follows the strings. -/
def evp_ok : EvpEnv :=
  { fetch_ok := true, ctx_ok := true, init_ok := true, after_key := [], after_iv := [] }

/-! ## crypto.c: Diffie-Hellman over the fixed group -/

/-- The modulus bytes, crypto.c lines 143-160. -/
def dh1536_p : List Byte :=
  [0xFF, 0xFF, 0xFF, 0xFF, 0xFF, 0xFF, 0xFF, 0xFF, 0xC9, 0x0F, 0xDA, 0xA2,
   0x21, 0x68, 0xC2, 0x34, 0xC4, 0xC6, 0x62, 0x8B, 0x80, 0xDC, 0x1C, 0xD1,
   0x29, 0x02, 0x4E, 0x08, 0x8A, 0x67, 0xCC, 0x74, 0x02, 0x0B, 0xBE, 0xA6,
   0x3B, 0x13, 0x9B, 0x22, 0x51, 0x4A, 0x08, 0x79, 0x8E, 0x34, 0x04, 0xDD,
   0xEF, 0x95, 0x19, 0xB3, 0xCD, 0x3A, 0x43, 0x1B, 0x30, 0x2B, 0x0A, 0x6D,
   0xF2, 0x5F, 0x14, 0x37, 0x4F, 0xE1, 0x35, 0x6D, 0x6D, 0x51, 0xC2, 0x45,
   0xE4, 0x85, 0xB5, 0x76, 0x62, 0x5E, 0x7E, 0xC6, 0xF4, 0x4C, 0x42, 0xE9,
   0xA6, 0x37, 0xED, 0x6B, 0x0B, 0xFF, 0x5C, 0xB6, 0xF4, 0x06, 0xB7, 0xED,
   0xEE, 0x38, 0x6B, 0xFB, 0x5A, 0x89, 0x9F, 0xA5, 0xAE, 0x9F, 0x24, 0x11,
   0x7C, 0x4B, 0x1F, 0xE6, 0x49, 0x28, 0x66, 0x51, 0xEC, 0xE4, 0x5B, 0x3D,
   0xC2, 0x00, 0x7C, 0xB8, 0xA1, 0x63, 0xBF, 0x05, 0x98, 0xDA, 0x48, 0x36,
   0x1C, 0x55, 0xD3, 0x9A, 0x69, 0x16, 0x3F, 0xA8, 0xFD, 0x24, 0xCF, 0x5F,
   0x83, 0x65, 0x5D, 0x23, 0xDC, 0xA3, 0xAD, 0x96, 0x1C, 0x62, 0xF3, 0x56,
   0x20, 0x85, 0x52, 0xBB, 0x9E, 0xD5, 0x29, 0x07, 0x70, 0x96, 0x96, 0x6D,
   0x67, 0x0C, 0x35, 0x4E, 0x4A, 0xBC, 0x98, 0x04, 0xF1, 0x74, 0x6C, 0x08,
   0xCA, 0x23, 0x73, 0x27, 0xFF, 0xFF, 0xFF, 0xFF, 0xFF, 0xFF, 0xFF, 0xFF]

/-- The generator bytes, crypto.c line 162. -/
def dh1536_g : List Byte := [0x02]

/-- The prime of the 1536-bit MODP group, RFC 3526 section 2, as the RFC prints
its hexadecimal value. -/
def rfc3526_modp_1536 : Nat :=
  0xFFFFFFFFFFFFFFFFC90FDAA22168C234C4C6628B80DC1CD129024E088A67CC74020BBEA63B139B22514A08798E3404DDEF9519B3CD3A431B302B0A6DF25F14374FE1356D6D51C245E485B576625E7EC6F44C42E9A637ED6B0BFF5CB6F406B7EDEE386BFB5A899FA5AE9F24117C4B1FE649286651ECE45B3DC2007CB8A163BF0598DA48361C55D39A69163FA8FD24CF5F83655D23DCA3AD961C62F356208552BB9ED529077096966D670C354E4ABC9804F1746C08CA237327FFFFFFFFFFFFFFFF

/-- Function `BN_bin2bn`: the number a byte string denotes, most significant byte first. -/
def BN_bin2bn (s : List Byte) : Nat := s.foldl (fun acc b => acc * 256 + b.val) 0

/-- The number of base-256 digits of `n`, counted in at most `steps` divisions. -/
def num_bytes_steps : Nat → Nat → Nat
  | 0, _ => 0
  | steps + 1, n => if n = 0 then 0 else num_bytes_steps steps (n / 256) + 1

/-- Function `BN_num_bytes`: the number of bytes of the shortest encoding, 0 for 0. -/
def BN_num_bytes (n : Nat) : Nat := num_bytes_steps n n

/-- The `len` low-order base-256 digits of `n`, most significant first
(`BN_bn2binpad`). -/
def BN_bn2binpad : Nat → Nat → List Byte
  | 0, _ => []
  | len + 1, n => BN_bn2binpad len (n / 256) ++ [Fin.ofNat (n % 256)]

/-- Function `BN_bn2bin`: the `BN_num_bytes n` bytes of `n`, without leading zero byte. -/
def BN_bn2bin (n : Nat) : List Byte := BN_bn2binpad (BN_num_bytes n) n

/-- Square-and-multiply for `b ^ e mod m` (`BN_mod_exp`); the first argument
bounds the number of halvings of `e`. -/
def mod_exp_steps : Nat → Nat → Nat → Nat → Nat
  | 0, _, _, m => 1 % m
  | steps + 1, b, e, m =>
    if e = 0 then 1 % m
    else if e % 2 = 1 then b * mod_exp_steps steps (b * b % m) (e / 2) m % m
    else mod_exp_steps steps (b * b % m) (e / 2) m

/-- The power `b ^ e mod m`. -/
def mod_exp (b e m : Nat) : Nat := mod_exp_steps e b e m

/-- A DH key object: the group and the key components it was given. -/
structure EVP_PKEY where
  p : Nat
  g : Nat
  priv_key : Option Nat
  pub_key : Option Nat
  deriving DecidableEq, Repr

/-- The third argument of `pkey_create`: no key, a private key or a public key. -/
inductive KeyArg where
  | no_key
  | priv (val : Nat)
  | pub (val : Nat)
  deriving DecidableEq, Repr

/-- Function `pkey_create`, crypto.c lines 164-194.  `lib_ok` tells whether every call
of the chain (number conversion, parameter building, context, `fromdata`) found
its resources; the function returns `NULL` otherwise. -/
def pkey_create (lib_ok : Bool) (key : KeyArg) : Option EVP_PKEY :=
  if lib_ok then
    some { p := BN_bin2bn dh1536_p, g := BN_bin2bn dh1536_g,
           priv_key := match key with
             | KeyArg.priv v => some v
             | _ => none,
           pub_key := match key with
             | KeyArg.pub v => some v
             | _ => none }
  else none

/-- Function `pkey_get_key`, crypto.c lines 196-214: `NULL` when the component cannot be
read, else a string of `BN_num_bytes` bytes filled by `BN_bn2bin`. -/
def pkey_get_key (component : Option Nat) : Option (List Byte) :=
  match component with
  | none => none
  | some bn => some ((BN_bn2bin bn).take (BN_num_bytes bn))

/-- What the library answers to the calls of `uc_crypto_dh_keypair`. -/
structure KeygenEnv where
  pkey_ok : Bool
  ctx_ok : Bool
  keygen_init_ok : Bool
  generated : Option Nat
  priv_readable : Bool
  pub_readable : Bool
  deriving DecidableEq, Repr

/-- Function `EVP_PKEY_generate` on a context made from `params`: a key over the same
group whose private part is the exponent the library drew and whose public
part is `g ^ priv mod p`; `NULL` when generation fails. -/
def EVP_PKEY_generate (params : EVP_PKEY) (drawn : Option Nat) : Option EVP_PKEY :=
  match drawn with
  | none => none
  | some x =>
    some { p := params.p, g := params.g, priv_key := some x,
           pub_key := some (mod_exp params.g x params.p) }

/-- Function `uc_crypto_dh_keypair`, crypto.c lines 216-243. -/
def uc_crypto_dh_keypair (env : KeygenEnv) : Option UcValue :=
  match pkey_create env.pkey_ok KeyArg.no_key with
  | none => none
  | some params =>
    if ¬ env.ctx_ok then none
    else if ¬ env.keygen_init_ok then none
    else
      match EVP_PKEY_generate params env.generated with
      | none => none
      | some pkey =>
        match pkey_get_key (if env.priv_readable then pkey.priv_key else none) with
        | none => none
        | some privkey =>
          match pkey_get_key (if env.pub_readable then pkey.pub_key else none) with
          | none => none
          | some pubkey => some (UcValue.array [privkey, pubkey])

/-- What the library answers to the calls of `uc_crypto_dh_sharedkey`;
`peer_ok` is the validation of the peer's public value made by
`EVP_PKEY_derive_set_peer`. -/
structure DhEnv where
  bn_priv_ok : Bool
  pkey_priv_ok : Bool
  bn_peer_ok : Bool
  pkey_peer_ok : Bool
  ctx_ok : Bool
  derive_init_ok : Bool
  peer_ok : Nat → Bool

/-- Function `DH_size`: the byte length of the modulus. -/
def DH_size (pkey : EVP_PKEY) : Nat := BN_num_bytes pkey.p

/-- Function `DH_compute_key`: the shared value `pub ^ priv mod p`, refused when it is
0, 1 or `p - 1`; written with leading zero bytes stripped. -/
def DH_compute_key (pkey peer : EVP_PKEY) : Option (List Byte) :=
  match pkey.priv_key, peer.pub_key with
  | some x, some y =>
    let z := mod_exp y x pkey.p
    if z ≤ 1 ∨ z = pkey.p - 1 then none else some (BN_bn2bin z)
  | _, _ => none

/-- Function `EVP_PKEY_derive` with a buffer of `outlen` bytes holding `buf`: fails when
the buffer is shorter than `DH_size` or the shared value is refused; otherwise
the stripped shared value is stored at the start of the buffer, the bytes up to
`DH_size` are zeroed, and the number of bytes of the shared value is returned
as the new length. -/
def EVP_PKEY_derive (pkey peer : EVP_PKEY) (buf : List Byte) (outlen : Nat) :
    Option (List Byte × Nat) :=
  if outlen < DH_size pkey then none
  else
    match DH_compute_key pkey peer with
    | none => none
    | some secret =>
      some (secret ++ List.replicate (DH_size pkey - secret.length) 0 ++ buf.drop (DH_size pkey),
            secret.length)

/-- Lines 270-294 of `uc_crypto_dh_sharedkey`: the derivation once both key
objects exist.  The length query answers `DH_size`; the string is allocated
zeroed with that length, and the second call fills it. -/
def uc_crypto_dh_sharedkey_derive (env : DhEnv) (pkey_priv pkey_peer : EVP_PKEY) :
    Option UcValue :=
  if ¬ env.ctx_ok then none
  else if ¬ env.derive_init_ok then none
  else
    match pkey_peer.pub_key with
    | none => none
    | some y =>
      if ¬ env.peer_ok y then none
      else
        let sharedlen := DH_size pkey_priv
        let us_str : List Byte := List.replicate (sharedlen + 1) 0
        let us_length := sharedlen
        match EVP_PKEY_derive pkey_priv pkey_peer us_str sharedlen with
        | none => none
        | some (str, _) => some (UcValue.string (str.take us_length))

/-- Function `uc_crypto_dh_sharedkey`, crypto.c lines 245-295. -/
def uc_crypto_dh_sharedkey (env : DhEnv) (privkey peerkey : UcValue) : Option UcValue :=
  match privkey, peerkey with
  | UcValue.string privp, UcValue.string peerp =>
    if ¬ env.bn_priv_ok then none
    else
      match pkey_create env.pkey_priv_ok (KeyArg.priv (BN_bin2bn privp)) with
      | none => none
      | some pkey_priv =>
        if ¬ env.bn_peer_ok then none
        else
          match pkey_create env.pkey_peer_ok (KeyArg.pub (BN_bin2bn peerp)) with
          | none => none
          | some pkey_peer => uc_crypto_dh_sharedkey_derive env pkey_priv pkey_peer
  | _, _ => none

/-- A library in which every call of a derivation finds its resources and the
peer's public value `y` is accepted when `1 < y < p - 1`. -/
def dh_env_ok : DhEnv :=
  { bn_priv_ok := true, pkey_priv_ok := true, bn_peer_ok := true, pkey_peer_ok := true,
    ctx_ok := true, derive_init_ok := true,
    peer_ok := fun y => decide (1 < y ∧ y < BN_bin2bn dh1536_p - 1) }

/-! ## crypto.c: vocabulary of the Diffie-Hellman properties -/

/-- Every call of a derivation that can fail for lack of resources succeeds. -/
def dh_resources_ok (env : DhEnv) : Prop :=
  env.bn_priv_ok = true ∧ env.pkey_priv_ok = true ∧ env.bn_peer_ok = true ∧
  env.pkey_peer_ok = true ∧ env.ctx_ok = true ∧ env.derive_init_ok = true

/-- The derivation with private value `x` accepts the public value `y`: the
library's validation of the peer passes and the shared value is none of the
refused values 0, 1 and `p - 1`. -/
def derive_accepts (env : DhEnv) (x y : Nat) : Prop :=
  env.peer_ok y = true ∧ 1 < y ^ x % rfc3526_modp_1536 ∧
  y ^ x % rfc3526_modp_1536 ≠ rfc3526_modp_1536 - 1

/-- The string `uc_crypto_dh_sharedkey` returns for the shared value `z`: its
bytes without leading zeros, then zero bytes up to the 192 of the group. -/
def shared_string (z : Nat) : List Byte :=
  BN_bn2bin z ++ List.replicate (192 - BN_num_bytes z) 0

/-! ## raw.c: the error function and sequences of calls -/

/-- A method call on one socket handle, with what the kernel answers to it. -/
inductive SockOp where
  | fileno
  | send (out : KResult) (dstmac buffer : UcValue)
  | recv (out : RecvOutcome)
  | close (out : KResult)
  deriving DecidableEq, Repr

/-- One method call on the handle. -/
def sock_step (ether_aton : List Byte → Option (List Byte)) (w : World)
    (sk : Option u1905_socket_t) : SockOp → Ret
  | SockOp.fileno => u1905_socket_fileno w sk
  | SockOp.send out dstmac buffer => u1905_socket_send ether_aton out w sk dstmac buffer
  | SockOp.recv out => u1905_socket_recv out w sk
  | SockOp.close out => u1905_socket_close out w sk

/-- A sequence of method calls on the handle, in order. -/
def sock_run (ether_aton : List Byte → Option (List Byte)) (w : World)
    (sk : Option u1905_socket_t) : List SockOp → World × Option u1905_socket_t
  | [] => (w, sk)
  | op :: rest =>
    sock_run ether_aton (sock_step ether_aton w sk op).world
      (sock_step ether_aton w sk op).sk rest

/-- Whether a sequence of method calls holds a `close`. -/
def has_close : List SockOp → Bool
  | [] => false
  | SockOp.close _ :: _ => true
  | _ :: rest => has_close rest

/-- The finalizer on the handle the methods left: `free_sock` on the socket
structure, nothing when there is none. -/
def finalize (out : KResult) (w : World) : Option u1905_socket_t → World
  | none => w
  | some sk => free_sock out w sk

/-- The steps of `u1905_socket` that come before the interface is resolved
succeeded: `socket()`, the two `fcntl` calls and `SO_REUSEADDR`. -/
def before_resolve_ok (env : SocketEnv) : Prop :=
  env.socket.ret ≠ -1 ∧ env.getfl.ret ≠ -1 ∧ env.setfl.ret ≠ -1 ∧ env.reuseaddr.ret ≠ -1

/-- The kernel answers of a run of an unprivileged process on a name that does
not resolve: `socket()` fails with `EPERM` (1); `if_nametoindex` would answer 0
with `ENODEV` (19). -/
def env_no_permission : SocketEnv :=
  { socket := { ret := -1, err := 1 }, getfl := { ret := 2, err := 0 },
    setfl := { ret := 0, err := 0 }, reuseaddr := { ret := 0, err := 0 },
    ifindex := 0, ifindex_err := 19, bind := { ret := 0, err := 0 },
    mcast := { ret := 0, err := 0 }, promisc := { ret := 0, err := 0 },
    close := { ret := 0, err := 0 } }

/-- The kernel answers of a run on a name that does not resolve, every other
call succeeding: descriptor 7, `if_nametoindex` answers 0 with `ENODEV` (19). -/
def env_no_interface : SocketEnv :=
  { socket := { ret := 7, err := 0 }, getfl := { ret := 2, err := 0 },
    setfl := { ret := 0, err := 0 }, reuseaddr := { ret := 0, err := 0 },
    ifindex := 0, ifindex_err := 19, bind := { ret := 0, err := 0 },
    mcast := { ret := 0, err := 0 }, promisc := { ret := 0, err := 0 },
    close := { ret := 0, err := 0 } }

/-! ## crypto.c: vocabulary of the key-pair property -/

/-- Every step of `uc_crypto_dh_keypair` succeeds: the parameters are built, the
context is created and initialised, a key is generated and both components can
be read. -/
def keygen_ok (env : KeygenEnv) : Prop :=
  env.pkey_ok = true ∧ env.ctx_ok = true ∧ env.keygen_init_ok = true ∧
  env.generated ≠ none ∧ env.priv_readable = true ∧ env.pub_readable = true

/-- A library in which key generation works and draws the private value 5. -/
def keygen_env_ok : KeygenEnv :=
  { pkey_ok := true, ctx_ok := true, keygen_init_ok := true, generated := some 5,
    priv_readable := true, pub_readable := true }

/-! ## crypto.c: SHA-256 (FIPS 180-4), the digest behind `EVP_sha256` -/

/-- Rotation of a 32-bit word to the right. -/
def rotr32 (x n : Nat) : Nat := ((x >>> n) ||| (x <<< (32 - n))) % 4294967296

/-- Addition modulo 2^32. -/
def add32 (a b : Nat) : Nat := (a + b) % 4294967296

/-- The function Ch of FIPS 180-4, section 4.1.2. -/
def sha_ch (x y z : Nat) : Nat := (x &&& y) ^^^ ((x ^^^ 0xffffffff) &&& z)

/-- The function Maj of FIPS 180-4, section 4.1.2. -/
def sha_maj (x y z : Nat) : Nat := (x &&& y) ^^^ (x &&& z) ^^^ (y &&& z)

/-- The function written with a capital sigma and index 0. -/
def big_sigma0 (x : Nat) : Nat := rotr32 x 2 ^^^ rotr32 x 13 ^^^ rotr32 x 22

/-- The function written with a capital sigma and index 1. -/
def big_sigma1 (x : Nat) : Nat := rotr32 x 6 ^^^ rotr32 x 11 ^^^ rotr32 x 25

/-- The function written with a small sigma and index 0. -/
def small_sigma0 (x : Nat) : Nat := rotr32 x 7 ^^^ rotr32 x 18 ^^^ (x >>> 3)

/-- The function written with a small sigma and index 1. -/
def small_sigma1 (x : Nat) : Nat := rotr32 x 17 ^^^ rotr32 x 19 ^^^ (x >>> 10)

/-- The largest `r` with `r ^ k ≤ n` among the numbers `r0 + m` with `m` below
`2 ^ bits`, settled one bit at a time from the top. -/
def root_bits (k n : Nat) : Nat → Nat → Nat
  | 0, r => r
  | b + 1, r => if (r + 2 ^ b) ^ k ≤ n then root_bits k n b (r + 2 ^ b) else root_bits k n b r

/-- The first thirty-two bits of the fractional part of the `k`-th root of `p`:
the integer part of the root of `p * 2 ^ (32 * k)`, modulo 2^32. -/
def root_fraction32 (k p : Nat) : Nat := root_bits k (p * 2 ^ (32 * k)) 40 0 % 4294967296

/-- The first sixty-four prime numbers. -/
def first_primes : List Nat :=
  [2, 3, 5, 7, 11, 13, 17, 19, 23, 29, 31, 37, 41, 43, 47, 53, 59, 61, 67, 71, 73, 79, 83, 89,
   97, 101, 103, 107, 109, 113, 127, 131, 137, 139, 149, 151, 157, 163, 167, 173, 179, 181, 191,
   193, 197, 199, 211, 223, 227, 229, 233, 239, 241, 251, 257, 263, 269, 271, 277, 281, 283, 293,
   307, 311]

/-- The sixty-four round constants of FIPS 180-4, section 4.2.2: the first
thirty-two bits of the fractional parts of the cube roots of the first
sixty-four primes (0x428a2f98 for 2, 0xc67178f2 for 311). -/
def sha256_k : List Nat := first_primes.map (root_fraction32 3)

/-- The eight working words of the hash. -/
structure HashState where
  a : Nat
  b : Nat
  c : Nat
  d : Nat
  e : Nat
  f : Nat
  g : Nat
  h : Nat
  deriving DecidableEq, Repr

/-- The initial hash value of FIPS 180-4, section 5.3.3: the first thirty-two
bits of the fractional parts of the square roots of the first eight primes
(0x6a09e667 for 2, 0x5be0cd19 for 19). -/
def sha256_h0 : HashState :=
  { a := root_fraction32 2 2, b := root_fraction32 2 3, c := root_fraction32 2 5,
    d := root_fraction32 2 7, e := root_fraction32 2 11, f := root_fraction32 2 13,
    g := root_fraction32 2 17, h := root_fraction32 2 19 }

/-- The big-endian 32-bit words of a byte string, four bytes each. -/
def be_words : Nat → List Byte → List Nat
  | 0, _ => []
  | n + 1, s =>
    ((s.getD 0 0).val * 16777216 + (s.getD 1 0).val * 65536 + (s.getD 2 0).val * 256
        + (s.getD 3 0).val) :: be_words n (s.drop 4)

/-- The message schedule of FIPS 180-4, section 6.2.2, step 1: `n` more words
after the words `w`. -/
def schedule_extend : Nat → List Nat → List Nat
  | 0, w => w
  | n + 1, w =>
    let t := w.length
    schedule_extend n
      (w ++ [add32 (add32 (small_sigma1 (w.getD (t - 2) 0)) (w.getD (t - 7) 0))
                   (add32 (small_sigma0 (w.getD (t - 15) 0)) (w.getD (t - 16) 0))])

/-- One round of FIPS 180-4, section 6.2.2, step 3. -/
def sha256_round (s : HashState) (kw : Nat × Nat) : HashState :=
  let t1 := add32 (add32 (add32 s.h (big_sigma1 s.e)) (add32 (sha_ch s.e s.f s.g) kw.1)) kw.2
  let t2 := add32 (big_sigma0 s.a) (sha_maj s.a s.b s.c)
  { a := add32 t1 t2, b := s.a, c := s.b, d := s.c, e := add32 s.d t1, f := s.e, g := s.f,
    h := s.g }

/-- The compression of one 64-byte block into the hash value. -/
def sha256_compress (hv : HashState) (block : List Byte) : HashState :=
  let w := schedule_extend 48 (be_words 16 block)
  let s := (sha256_k.zip w).foldl sha256_round hv
  { a := add32 hv.a s.a, b := add32 hv.b s.b, c := add32 hv.c s.c, d := add32 hv.d s.d,
    e := add32 hv.e s.e, f := add32 hv.f s.f, g := add32 hv.g s.g, h := add32 hv.h s.h }

/-- The padding of FIPS 180-4, section 5.1.1: a one bit, zero bits, and the
length in bits as a 64-bit big-endian number, to a multiple of 64 bytes. -/
def sha256_pad (msg : List Byte) : List Byte :=
  msg ++ [0x80] ++ List.replicate ((119 - msg.length % 64) % 64) 0
    ++ BN_bn2binpad 8 (8 * msg.length)

/-- The hash value after the first `n` blocks of `data`. -/
def sha256_blocks : Nat → HashState → List Byte → HashState
  | 0, hv, _ => hv
  | n + 1, hv, data => sha256_blocks n (sha256_compress hv (data.take 64)) (data.drop 64)

/-- The digest bytes of a hash value: the eight words, most significant byte
first. -/
def sha256_bytes (hv : HashState) : List Byte :=
  BN_bn2binpad 4 hv.a ++ BN_bn2binpad 4 hv.b ++ BN_bn2binpad 4 hv.c ++ BN_bn2binpad 4 hv.d
    ++ BN_bn2binpad 4 hv.e ++ BN_bn2binpad 4 hv.f ++ BN_bn2binpad 4 hv.g ++ BN_bn2binpad 4 hv.h

/-- The SHA-256 digest of a byte string. -/
def sha256 (msg : List Byte) : List Byte :=
  sha256_bytes (sha256_blocks ((sha256_pad msg).length / 64) sha256_h0 (sha256_pad msg))

/-- What the library answers where the digest calls of crypto.c can fail. -/
structure MdEnv where
  ctx_ok : Bool
  init_ok : Bool
  update_ok : Bool
  final_ok : Bool
  deriving DecidableEq, Repr

/-- Constant `SHA256_DIGEST_LENGTH` of `<openssl/sha.h>`. -/
def SHA256_DIGEST_LENGTH : Nat := 32

/-- What `uc_crypto_sha256` does: `ret value` when it returns `value` (`none` is
`NULL`); `fault` when the update call is handed a count that reaches past the
end of the string. -/
inductive DigestRet where
  | ret (value : Option UcValue)
  | fault
  deriving DecidableEq, Repr

/-- Function `uc_crypto_sha256`, crypto.c lines 16-42.  The length of the string
is stored in `int inputlen`; a negative `inputlen` reaches `EVP_DigestUpdate`
as a count near 2^64. -/
def uc_crypto_sha256 (env : MdEnv) (input : UcValue) : DigestRet :=
  match input with
  | UcValue.string s =>
    let inputlen := to_int (s.length : Int)
    if ¬ env.ctx_ok then DigestRet.ret none
    else if ¬ env.init_ok then DigestRet.ret none
    else if inputlen < 0 then DigestRet.fault
    else if ¬ env.update_ok then DigestRet.ret none
    else if ¬ env.final_ok then DigestRet.ret none
    else
      let hash := sha256 (s.take inputlen.toNat)
      DigestRet.ret (some (UcValue.string (hash.take SHA256_DIGEST_LENGTH)))
  | _ => DigestRet.ret none

/-- Every digest call finds its resources. -/
def md_ok (env : MdEnv) : Prop :=
  env.ctx_ok = true ∧ env.init_ok = true ∧ env.update_ok = true ∧ env.final_ok = true

/-- A library in which every digest call succeeds. -/
def md_env_ok : MdEnv := { ctx_ok := true, init_ok := true, update_ok := true, final_ok := true }

/-! ## raw.c: properties -/

theorem new_calls_append (w w1 : World) (cs : List Syscall) (h : w1.trace = w.trace ++ cs) :
    new_calls w w1 = cs := by
  simp [new_calls, h]

/-- C1: on a handle whose descriptor is marked closed (`sock == -1`), each of
fileno, send, recv and close returns `NULL`, stores `EBADF` in the error slot,
makes no libc or kernel call, and leaves descriptor and interface index as
they were; so a second close is an error. -/
theorem closed_handle_methods_fail (w : World) (s : u1905_socket_t) (h : s.sock = -1)
    (ether_aton : List Byte → Option (List Byte)) (sendto_out close_out : KResult)
    (recv_out : RecvOutcome) (dstmac buffer : UcValue) :
    fails_closed w s (u1905_socket_fileno w (some s)) ∧
    fails_closed w s (u1905_socket_send ether_aton sendto_out w (some s) dstmac buffer) ∧
    fails_closed w s (u1905_socket_recv recv_out w (some s)) ∧
    fails_closed w s (u1905_socket_close close_out w (some s)) := by
  simp [fails_closed, u1905_socket_fileno, u1905_socket_send, u1905_socket_recv,
    u1905_socket_close, h, err_return, set_error]

/-- C1 at a concrete handle: descriptor 5 on interface 2, closed once and then
used again. -/
theorem closed_handle_methods_fail_witness :
    (u1905_socket_close { ret := 0, err := 0 } { errno := 0, last_error := { code := 0, msg := none }, trace := [] }
        (some { sock := 5, ifidx := 2 })).sk = some { sock := -1, ifidx := 2 } ∧
    (fails_closed { errno := 0, last_error := { code := 0, msg := none }, trace := [Syscall.close 5] }
        { sock := -1, ifidx := 2 }
        (u1905_socket_fileno { errno := 0, last_error := { code := 0, msg := none }, trace := [Syscall.close 5] }
          (some { sock := -1, ifidx := 2 })) ∧
     fails_closed { errno := 0, last_error := { code := 0, msg := none }, trace := [Syscall.close 5] }
        { sock := -1, ifidx := 2 }
        (u1905_socket_send ether_aton_glibc { ret := 3, err := 0 }
          { errno := 0, last_error := { code := 0, msg := none }, trace := [Syscall.close 5] }
          (some { sock := -1, ifidx := 2 }) (UcValue.string [49]) (UcValue.string [1, 2, 3])) ∧
     fails_closed { errno := 0, last_error := { code := 0, msg := none }, trace := [Syscall.close 5] }
        { sock := -1, ifidx := 2 }
        (u1905_socket_recv (RecvOutcome.frame [1, 2])
          { errno := 0, last_error := { code := 0, msg := none }, trace := [Syscall.close 5] }
          (some { sock := -1, ifidx := 2 })) ∧
     fails_closed { errno := 0, last_error := { code := 0, msg := none }, trace := [Syscall.close 5] }
        { sock := -1, ifidx := 2 }
        (u1905_socket_close { ret := 0, err := 0 }
          { errno := 0, last_error := { code := 0, msg := none }, trace := [Syscall.close 5] }
          (some { sock := -1, ifidx := 2 }))) :=
  ⟨by decide,
   closed_handle_methods_fail _ { sock := -1, ifidx := 2 } rfl ether_aton_glibc
     { ret := 3, err := 0 } { ret := 0, err := 0 } (RecvOutcome.frame [1, 2])
     (UcValue.string [49]) (UcValue.string [1, 2, 3])⟩

/-- What `u1905_socket_setup` does to the trace and what it returns, for every
answer of the kernel. -/
theorem u1905_socket_setup_calls (env : SocketEnv) (w : World) (name : List Byte) (pr : Int) :
    (u1905_socket_setup env w name pr).1.trace
        = w.trace ++ new_calls w (u1905_socket_setup env w name pr).1 ∧
    ((u1905_socket_setup env w name pr).2 = none → env.socket.ret ≠ -1 →
      closed_fds (new_calls w (u1905_socket_setup env w name pr).1) = [env.socket.ret] ∧
      (new_calls w (u1905_socket_setup env w name pr).1).getLast?
        = some (Syscall.close env.socket.ret)) ∧
    (∀ v, (u1905_socket_setup env w name pr).2 = some v →
      v = UcValue.resource env.socket.ret env.ifindex ∧ env.socket.ret ≠ -1 ∧
      setup_ok env pr ∧ closed_fds (new_calls w (u1905_socket_setup env w name pr).1) = []) ∧
    (env.socket.ret = -1 → (u1905_socket_setup env w name pr).2 = none ∧
      closed_fds (new_calls w (u1905_socket_setup env w name pr).1) = []) ∧
    (¬ setup_ok env pr → (u1905_socket_setup env w name pr).2 = none) := by
  unfold u1905_socket_setup u1905_socket_join close_err_return setup_ok new_calls
  by_cases h0 : env.socket.ret = -1
  · simp [World.call, set_error, h0, closed_fds]
  by_cases h1 : env.getfl.ret = -1
  · simp [World.call, set_error, h0, h1, closed_fds]
  by_cases h2 : env.setfl.ret = -1
  · simp [World.call, set_error, h0, h1, h2, closed_fds]
  by_cases h3 : env.reuseaddr.ret = -1
  · simp [World.call, set_error, h0, h1, h2, h3, closed_fds]
  by_cases h4 : env.ifindex = 0
  · simp [World.call, World.call_nametoindex, set_error, h0, h1, h2, h3, h4, closed_fds]
  by_cases h5 : env.bind.ret = -1
  · simp [World.call, World.call_nametoindex, set_error, h0, h1, h2, h3, h4, h5, closed_fds]
  by_cases h6 : pr = ETH_P_1905 ∨ pr = ETH_P_LLDP
  · by_cases h7 : env.mcast.ret = -1
    · simp [World.call, World.call_nametoindex, set_error, h0, h1, h2, h3, h4, h5, h6, h7,
        closed_fds]
    by_cases h8 : env.promisc.ret = -1
    · simp [World.call, World.call_nametoindex, set_error, h0, h1, h2, h3, h4, h5, h6, h7, h8,
        closed_fds]
    · simp [World.call, World.call_nametoindex, set_error, h0, h1, h2, h3, h4, h5, h6, h7, h8,
        closed_fds]
  · simp [World.call, World.call_nametoindex, set_error, h0, h1, h2, h3, h4, h5, h6,
      closed_fds]

/-- C2: whatever the kernel answers to the setup steps of `u1905_socket`, once
`socket()` has produced a descriptor a failing step makes the function close
that descriptor exactly once, as its last call, and return `NULL`; a resource is
returned only when every step succeeded, and then nothing was closed; and a
`NULL` return leaves either one close of the descriptor or no descriptor that
was ever created. -/
theorem open_failure_closes_descriptor_once (env : SocketEnv) (w : World)
    (ifname proto : UcValue) :
    (∀ name pr, ifname = UcValue.string name → proto_arg proto = some pr →
      env.socket.ret ≠ -1 → ¬ setup_ok env pr →
      (u1905_socket env w ifname proto).2 = none ∧
      closed_fds (new_calls w (u1905_socket env w ifname proto).1) = [env.socket.ret] ∧
      (new_calls w (u1905_socket env w ifname proto).1).getLast?
        = some (Syscall.close env.socket.ret)) ∧
    (∀ v, (u1905_socket env w ifname proto).2 = some v →
      v = UcValue.resource env.socket.ret env.ifindex ∧ env.socket.ret ≠ -1 ∧
      (∃ pr, proto_arg proto = some pr ∧ setup_ok env pr) ∧
      closed_fds (new_calls w (u1905_socket env w ifname proto).1) = []) ∧
    ((u1905_socket env w ifname proto).2 = none →
      (env.socket.ret ≠ -1 ∧
        closed_fds (new_calls w (u1905_socket env w ifname proto).1) = [env.socket.ret]) ∨
      (closed_fds (new_calls w (u1905_socket env w ifname proto).1) = [] ∧
        ∀ p, Syscall.socket p ∈ new_calls w (u1905_socket env w ifname proto).1 →
          env.socket.ret = -1)) := by
  cases ifname with
  | string name =>
    cases hp : proto_arg proto with
    | none => simp [u1905_socket, hp, new_calls, set_error, closed_fds]
    | some pr =>
      have key := u1905_socket_setup_calls env w name pr
      simp only [u1905_socket, hp]
      obtain ⟨_, k2, k3, k4, k5⟩ := key
      refine ⟨?_, ?_, ?_⟩
      · intro name1 pr1 _ hpr h0 hns
        cases hpr
        exact ⟨k5 hns, k2 (k5 hns) h0⟩
      · intro v hv
        obtain ⟨a, b, c, d⟩ := k3 v hv
        exact ⟨a, b, ⟨pr, rfl, c⟩, d⟩
      · intro hn
        by_cases h0 : env.socket.ret = -1
        · exact Or.inr ⟨(k4 h0).2, fun _ _ => h0⟩
        · exact Or.inl ⟨h0, (k2 hn h0).1⟩
  | _ => simp [u1905_socket, new_calls, set_error, closed_fds]

/-- C2 at a concrete run: descriptor 7 is created, `bind` fails with error 19;
the function returns `NULL`, the calls end with the one `close(7)`. -/
theorem open_failure_closes_descriptor_once_witness :
    (u1905_socket
        { socket := { ret := 7, err := 0 }, getfl := { ret := 2, err := 0 },
          setfl := { ret := 0, err := 0 }, reuseaddr := { ret := 0, err := 0 },
          ifindex := 3, ifindex_err := 0, bind := { ret := -1, err := 19 },
          mcast := { ret := 0, err := 0 }, promisc := { ret := 0, err := 0 },
          close := { ret := 0, err := 0 } }
        { errno := 0, last_error := { code := 0, msg := none }, trace := [] }
        (UcValue.string [101, 116, 104, 48]) (UcValue.integer 0x893a)).2 = none ∧
    closed_fds (new_calls { errno := 0, last_error := { code := 0, msg := none }, trace := [] }
      (u1905_socket
        { socket := { ret := 7, err := 0 }, getfl := { ret := 2, err := 0 },
          setfl := { ret := 0, err := 0 }, reuseaddr := { ret := 0, err := 0 },
          ifindex := 3, ifindex_err := 0, bind := { ret := -1, err := 19 },
          mcast := { ret := 0, err := 0 }, promisc := { ret := 0, err := 0 },
          close := { ret := 0, err := 0 } }
        { errno := 0, last_error := { code := 0, msg := none }, trace := [] }
        (UcValue.string [101, 116, 104, 48]) (UcValue.integer 0x893a)).1) = [7] ∧
    (new_calls { errno := 0, last_error := { code := 0, msg := none }, trace := [] }
      (u1905_socket
        { socket := { ret := 7, err := 0 }, getfl := { ret := 2, err := 0 },
          setfl := { ret := 0, err := 0 }, reuseaddr := { ret := 0, err := 0 },
          ifindex := 3, ifindex_err := 0, bind := { ret := -1, err := 19 },
          mcast := { ret := 0, err := 0 }, promisc := { ret := 0, err := 0 },
          close := { ret := 0, err := 0 } }
        { errno := 0, last_error := { code := 0, msg := none }, trace := [] }
        (UcValue.string [101, 116, 104, 48]) (UcValue.integer 0x893a)).1).getLast?
      = some (Syscall.close 7) :=
  (open_failure_closes_descriptor_once _ _ _ _).1 [101, 116, 104, 48] 0x893a rfl
    (by decide) (by decide) (by decide)

/-- The membership requests of a successful `u1905_socket_setup`. -/
theorem u1905_socket_setup_memberships (env : SocketEnv) (w : World) (name : List Byte)
    (pr : Int) (v : UcValue) (hv : (u1905_socket_setup env w name pr).2 = some v) :
    memberships (new_calls w (u1905_socket_setup env w name pr).1) =
      if pr = ETH_P_1905 ∨ pr = ETH_P_LLDP then
        [mreq_multicast pr env.ifindex, mreq_promisc env.ifindex]
      else [] := by
  revert hv
  unfold u1905_socket_setup u1905_socket_join close_err_return new_calls
  by_cases h0 : env.socket.ret = -1
  · simp [World.call, set_error, h0]
  by_cases h1 : env.getfl.ret = -1
  · simp [World.call, set_error, h0, h1]
  by_cases h2 : env.setfl.ret = -1
  · simp [World.call, set_error, h0, h1, h2]
  by_cases h3 : env.reuseaddr.ret = -1
  · simp [World.call, set_error, h0, h1, h2, h3]
  by_cases h4 : env.ifindex = 0
  · simp [World.call, World.call_nametoindex, set_error, h0, h1, h2, h3, h4]
  by_cases h5 : env.bind.ret = -1
  · simp [World.call, World.call_nametoindex, set_error, h0, h1, h2, h3, h4, h5]
  by_cases h6 : pr = ETH_P_1905 ∨ pr = ETH_P_LLDP
  · by_cases h7 : env.mcast.ret = -1
    · simp [World.call, World.call_nametoindex, set_error, h0, h1, h2, h3, h4, h5, h6, h7]
    by_cases h8 : env.promisc.ret = -1
    · simp [World.call, World.call_nametoindex, set_error, h0, h1, h2, h3, h4, h5, h6, h7, h8]
    · simp [World.call, World.call_nametoindex, set_error, h0, h1, h2, h3, h4, h5, h6, h7, h8,
        memberships]
  · simp [World.call, World.call_nametoindex, set_error, h0, h1, h2, h3, h4, h5, h6,
      memberships]

theorem to_int_of_uint16 (e : Nat) (he : e ≤ 65535) :
    to_int (ucv_int64_get (e : Int)) = (e : Int) := by
  have h : ¬ (9223372036854775807 < (e : Int)) := by omega
  simp only [ucv_int64_get, h, if_false]
  unfold to_int
  omega

/-- C3: for an ether type `e` in 0..65535 a successful `u1905_socket` issues
membership requests exactly when `e` is 0x893a or 0x88cc (LLDP): first the
multicast request with address length 6 and address 01:80:C2:00:00:13 for
0x893a, 01:80:C2:00:00:0E for LLDP, then the promiscuous request, both on the
resolved interface; for every other `e` it issues none. -/
theorem open_membership_requests (env : SocketEnv) (w : World) (name : List Byte) (e : Nat)
    (he : e ≤ 65535) (v : UcValue)
    (hv : (u1905_socket env w (UcValue.string name) (UcValue.integer e)).2 = some v) :
    memberships (new_calls w
        (u1905_socket env w (UcValue.string name) (UcValue.integer e)).1) =
      if e = 0x893a then
        [{ mr_ifindex := env.ifindex, mr_type := MrType.PACKET_MR_MULTICAST, mr_alen := 6,
           mr_address := [0x01, 0x80, 0xC2, 0x00, 0x00, 0x13, 0, 0] },
         { mr_ifindex := env.ifindex, mr_type := MrType.PACKET_MR_PROMISC, mr_alen := 0,
           mr_address := [0, 0, 0, 0, 0, 0, 0, 0] }]
      else if e = 0x88cc then
        [{ mr_ifindex := env.ifindex, mr_type := MrType.PACKET_MR_MULTICAST, mr_alen := 6,
           mr_address := [0x01, 0x80, 0xC2, 0x00, 0x00, 0x0E, 0, 0] },
         { mr_ifindex := env.ifindex, mr_type := MrType.PACKET_MR_PROMISC, mr_alen := 0,
           mr_address := [0, 0, 0, 0, 0, 0, 0, 0] }]
      else [] := by
  simp only [u1905_socket, proto_arg, to_int_of_uint16 e he] at hv ⊢
  rw [u1905_socket_setup_memberships env w name e v hv]
  by_cases h1 : e = 0x893a
  · subst h1; simp [ETH_P_1905, ETH_P_LLDP, mreq_multicast, mreq_promisc, ETH_ALEN]
  by_cases h2 : e = 0x88cc
  · subst h2; simp [ETH_P_1905, ETH_P_LLDP, mreq_multicast, mreq_promisc, ETH_ALEN]
  have h1i : ¬ ((e : Int) = 0x893a) := by omega
  have h2i : ¬ ((e : Int) = 0x88cc) := by omega
  simp [ETH_P_1905, ETH_P_LLDP, h1, h2, h1i, h2i]

/-- C3 at the LLDP ether type on interface "eth0": the open succeeds and asks
for 01:80:C2:00:00:0E and for promiscuous reception on interface 3. -/
theorem open_membership_requests_witness :
    (0x88cc : Nat) ≤ 65535 ∧
    (u1905_socket env_all_ok world0 (UcValue.string [101, 116, 104, 48])
      (UcValue.integer ((0x88cc : Nat) : Int))).2 = some (UcValue.resource 7 3) ∧
    memberships (new_calls world0
        (u1905_socket env_all_ok world0 (UcValue.string [101, 116, 104, 48])
          (UcValue.integer ((0x88cc : Nat) : Int))).1) =
      if (0x88cc : Nat) = 0x893a then
        [{ mr_ifindex := env_all_ok.ifindex, mr_type := MrType.PACKET_MR_MULTICAST, mr_alen := 6,
           mr_address := [0x01, 0x80, 0xC2, 0x00, 0x00, 0x13, 0, 0] },
         { mr_ifindex := env_all_ok.ifindex, mr_type := MrType.PACKET_MR_PROMISC, mr_alen := 0,
           mr_address := [0, 0, 0, 0, 0, 0, 0, 0] }]
      else if (0x88cc : Nat) = 0x88cc then
        [{ mr_ifindex := env_all_ok.ifindex, mr_type := MrType.PACKET_MR_MULTICAST, mr_alen := 6,
           mr_address := [0x01, 0x80, 0xC2, 0x00, 0x00, 0x0E, 0, 0] },
         { mr_ifindex := env_all_ok.ifindex, mr_type := MrType.PACKET_MR_PROMISC, mr_alen := 0,
           mr_address := [0, 0, 0, 0, 0, 0, 0, 0] }]
      else [] :=
  ⟨by decide, by decide,
   open_membership_requests env_all_ok world0 [101, 116, 104, 48] 0x88cc (by decide)
     (UcValue.resource 7 3) (by decide)⟩

/-- C10: on an open socket, a destination that is not a string, or that the
libc parser rejects, makes `send` return `NULL` with `EINVAL` and the message
for a bad destination in the error slot, whatever the payload is, and no call
is made, so nothing is transmitted. -/
theorem send_rejects_malformed_mac (ether_aton : List Byte → Option (List Byte))
    (out : KResult) (w : World) (s : u1905_socket_t) (dstmac buffer : UcValue)
    (hopen : s.sock ≠ -1) (hbad : malformed_mac ether_aton dstmac) :
    (u1905_socket_send ether_aton out w (some s) dstmac buffer).value = none ∧
    (u1905_socket_send ether_aton out w (some s) dstmac buffer).world.last_error
      = { code := EINVAL, msg := some "Invalid destination MAC address" } ∧
    (u1905_socket_send ether_aton out w (some s) dstmac buffer).world.trace = w.trace ∧
    sendto_calls (new_calls w
      (u1905_socket_send ether_aton out w (some s) dstmac buffer).world) = [] ∧
    (u1905_socket_send ether_aton out w (some s) dstmac buffer).sk = some s := by
  cases dstmac with
  | string m =>
    have hm : ether_aton (cstr m) = none := hbad
    simp [u1905_socket_send, hopen, hm, err_return, set_error, new_calls, sendto_calls]
  | _ => simp [u1905_socket_send, hopen, err_return, set_error, new_calls, sendto_calls]

/-- C10 at the destination "not-a-mac" with the parser of the GNU C library, on
descriptor 7 of interface 3. -/
theorem send_rejects_malformed_mac_witness :
    ((7 : Int) ≠ -1 ∧
     malformed_mac ether_aton_glibc (UcValue.string [110, 111, 116, 45, 97, 45, 109, 97, 99])) ∧
    (u1905_socket_send ether_aton_glibc { ret := 4, err := 0 } world0
      (some { sock := 7, ifidx := 3 })
      (UcValue.string [110, 111, 116, 45, 97, 45, 109, 97, 99])
      (UcValue.string [1, 2, 3, 4])).value = none ∧
    (u1905_socket_send ether_aton_glibc { ret := 4, err := 0 } world0
      (some { sock := 7, ifidx := 3 })
      (UcValue.string [110, 111, 116, 45, 97, 45, 109, 97, 99])
      (UcValue.string [1, 2, 3, 4])).world.last_error
      = { code := EINVAL, msg := some "Invalid destination MAC address" } ∧
    (u1905_socket_send ether_aton_glibc { ret := 4, err := 0 } world0
      (some { sock := 7, ifidx := 3 })
      (UcValue.string [110, 111, 116, 45, 97, 45, 109, 97, 99])
      (UcValue.string [1, 2, 3, 4])).world.trace = world0.trace ∧
    sendto_calls (new_calls world0
      (u1905_socket_send ether_aton_glibc { ret := 4, err := 0 } world0
        (some { sock := 7, ifidx := 3 })
        (UcValue.string [110, 111, 116, 45, 97, 45, 109, 97, 99])
        (UcValue.string [1, 2, 3, 4])).world) = [] ∧
    (u1905_socket_send ether_aton_glibc { ret := 4, err := 0 } world0
      (some { sock := 7, ifidx := 3 })
      (UcValue.string [110, 111, 116, 45, 97, 45, 109, 97, 99])
      (UcValue.string [1, 2, 3, 4])).sk = some { sock := 7, ifidx := 3 } :=
  ⟨⟨by decide, by unfold malformed_mac; decide⟩,
   send_rejects_malformed_mac ether_aton_glibc { ret := 4, err := 0 } world0
     { sock := 7, ifidx := 3 } (UcValue.string [110, 111, 116, 45, 97, 45, 109, 97, 99])
     (UcValue.string [1, 2, 3, 4]) (by decide) (by unfold malformed_mac; decide)⟩

/-! ## crypto.c: properties of the cipher functions -/

set_option maxRecDepth 1000000 in
/-- The cipher reproduces the example vector of FIPS 197, appendix C.1. -/
theorem aes_fips197_c1 :
    aes_encrypt_block
      (key_expansion [0x00, 0x01, 0x02, 0x03, 0x04, 0x05, 0x06, 0x07,
                      0x08, 0x09, 0x0a, 0x0b, 0x0c, 0x0d, 0x0e, 0x0f])
      [0x00, 0x11, 0x22, 0x33, 0x44, 0x55, 0x66, 0x77,
       0x88, 0x99, 0xaa, 0xbb, 0xcc, 0xdd, 0xee, 0xff]
    = [0x69, 0xc4, 0xe0, 0xd8, 0x6a, 0x7b, 0x04, 0x30,
       0xd8, 0xcd, 0xb7, 0x80, 0x70, 0xb4, 0xc5, 0x5a] := by
  decide

set_option maxRecDepth 1000000 in
/-- The encryption function reproduces the first two blocks of the CBC-AES128
example of NIST SP 800-38A, appendix F.2.1. -/
theorem aes_encrypt_sp800_38a_f21 :
    uc_crypto_aes_encrypt evp_ok
      (UcValue.string [0x2b, 0x7e, 0x15, 0x16, 0x28, 0xae, 0xd2, 0xa6,
                       0xab, 0xf7, 0x15, 0x88, 0x09, 0xcf, 0x4f, 0x3c])
      (UcValue.string [0x00, 0x01, 0x02, 0x03, 0x04, 0x05, 0x06, 0x07,
                       0x08, 0x09, 0x0a, 0x0b, 0x0c, 0x0d, 0x0e, 0x0f])
      (UcValue.string [0x6b, 0xc1, 0xbe, 0xe2, 0x2e, 0x40, 0x9f, 0x96,
                       0xe9, 0x3d, 0x7e, 0x11, 0x73, 0x93, 0x17, 0x2a,
                       0xae, 0x2d, 0x8a, 0x57, 0x1e, 0x03, 0xac, 0x9c,
                       0x9e, 0xb7, 0x6f, 0xac, 0x45, 0xaf, 0x8e, 0x51])
    = AesRet.ret
        [0x76, 0x49, 0xab, 0xac, 0x81, 0x19, 0xb2, 0x46, 0xce, 0xe9, 0x8e, 0x9b, 0x12, 0xe9, 0x19, 0x7d,
         0x50, 0x86, 0xcb, 0x9b, 0x50, 0x72, 0x19, 0xee, 0x95, 0xdb, 0x11, 0x3a, 0x91, 0x76, 0x78, 0xb2]
        (some (UcValue.string
        [0x76, 0x49, 0xab, 0xac, 0x81, 0x19, 0xb2, 0x46, 0xce, 0xe9, 0x8e, 0x9b, 0x12, 0xe9, 0x19, 0x7d,
         0x50, 0x86, 0xcb, 0x9b, 0x50, 0x72, 0x19, 0xee, 0x95, 0xdb, 0x11, 0x3a, 0x91, 0x76, 0x78, 0xb2])) := by
  decide

theorem bxor_val (a b : Byte) : (a ^^^ b).val = a.val ^^^ b.val := by
  show (a.val ^^^ b.val) % 256 = a.val ^^^ b.val
  exact Nat.mod_eq_of_lt (Nat.xor_lt_two_pow (n := 8) a.isLt b.isLt)

theorem bxor_assoc (a b c : Byte) : a ^^^ b ^^^ c = a ^^^ (b ^^^ c) := by
  apply Fin.ext; simp only [bxor_val]; exact Nat.xor_assoc _ _ _

theorem bxor_comm (a b : Byte) : a ^^^ b = b ^^^ a := by
  apply Fin.ext; simp only [bxor_val]; exact Nat.xor_comm _ _

theorem bxor_self (a : Byte) : a ^^^ a = 0 := by
  apply Fin.ext; simp only [bxor_val]; simp

theorem bxor_zero (a : Byte) : a ^^^ 0 = a := by
  apply Fin.ext; simp only [bxor_val]; simp

theorem zero_bxor (a : Byte) : 0 ^^^ a = a := by
  rw [bxor_comm, bxor_zero]

theorem bxor_cancel (a k : Byte) : a ^^^ k ^^^ k = a := by
  rw [bxor_assoc, bxor_self, bxor_zero]


set_option maxRecDepth 100000 in
theorem inv_sub_byte_sub_byte : ∀ b : Byte, inv_sub_byte (sub_byte b) = b := by decide

set_option maxRecDepth 100000 in
theorem sub_byte_inv_sub_byte : ∀ b : Byte, sub_byte (inv_sub_byte b) = b := by decide

theorem two_mul_xor (a b : Nat) : 2 * (a ^^^ b) = 2 * a ^^^ 2 * b := by
  apply Nat.eq_of_testBit_eq
  intro i
  cases i with
  | zero => simp [Nat.testBit_zero, Nat.mul_mod_right]
  | succ i => simp [Nat.testBit_succ, Nat.xor_div_two]

theorem xor_div_128 (a b : Nat) : (a ^^^ b) / 128 = a / 128 ^^^ b / 128 := by
  have h : ∀ x : Nat, x / 128 = x / 2 / 2 / 2 / 2 / 2 / 2 / 2 := by
    intro x; omega
  rw [h, h a, h b]
  simp only [Nat.xor_div_two]

theorem bit_mul_xor (p q : Nat) (hp : p < 2) (hq : q < 2) :
    (p ^^^ q) * 0x11b = p * 0x11b ^^^ q * 0x11b := by
  interval_cases p <;> interval_cases q <;> decide

set_option maxRecDepth 100000 in
theorem xtime_val : ∀ b : Byte, (xtime b).val = (2 * b.val) ^^^ (b.val / 128 * 0x11b) := by
  decide

theorem xtime_xor (a b : Byte) : xtime (a ^^^ b) = xtime a ^^^ xtime b := by
  apply Fin.ext
  rw [xtime_val, bxor_val, bxor_val, xtime_val, xtime_val, two_mul_xor, xor_div_128,
    bit_mul_xor _ _ (by omega) (by omega)]
  ac_rfl

theorem gmul3_xor (a b : Byte) : gmul3 (a ^^^ b) = gmul3 a ^^^ gmul3 b := by
  have : Std.Associative (α := Byte) (fun x y => x ^^^ y) := ⟨bxor_assoc⟩
  have : Std.Commutative (α := Byte) (fun x y => x ^^^ y) := ⟨bxor_comm⟩
  simp only [gmul3, xtime_xor]; ac_rfl

theorem gmul9_xor (a b : Byte) : gmul9 (a ^^^ b) = gmul9 a ^^^ gmul9 b := by
  have : Std.Associative (α := Byte) (fun x y => x ^^^ y) := ⟨bxor_assoc⟩
  have : Std.Commutative (α := Byte) (fun x y => x ^^^ y) := ⟨bxor_comm⟩
  simp only [gmul9, xtime_xor]; ac_rfl

theorem gmul11_xor (a b : Byte) : gmul11 (a ^^^ b) = gmul11 a ^^^ gmul11 b := by
  have : Std.Associative (α := Byte) (fun x y => x ^^^ y) := ⟨bxor_assoc⟩
  have : Std.Commutative (α := Byte) (fun x y => x ^^^ y) := ⟨bxor_comm⟩
  simp only [gmul11, xtime_xor]; ac_rfl

theorem gmul13_xor (a b : Byte) : gmul13 (a ^^^ b) = gmul13 a ^^^ gmul13 b := by
  have : Std.Associative (α := Byte) (fun x y => x ^^^ y) := ⟨bxor_assoc⟩
  have : Std.Commutative (α := Byte) (fun x y => x ^^^ y) := ⟨bxor_comm⟩
  simp only [gmul13, xtime_xor]; ac_rfl

theorem gmul14_xor (a b : Byte) : gmul14 (a ^^^ b) = gmul14 a ^^^ gmul14 b := by
  have : Std.Associative (α := Byte) (fun x y => x ^^^ y) := ⟨bxor_assoc⟩
  have : Std.Commutative (α := Byte) (fun x y => x ^^^ y) := ⟨bxor_comm⟩
  simp only [gmul14, xtime_xor]; ac_rfl

set_option maxRecDepth 100000 in
theorem mix_diag : ∀ x : Byte,
    gmul14 (xtime x) ^^^ gmul11 x ^^^ gmul13 x ^^^ gmul9 (gmul3 x) = x := by decide

set_option maxRecDepth 100000 in
theorem mix_off1 : ∀ x : Byte,
    gmul14 (gmul3 x) ^^^ gmul11 (xtime x) ^^^ gmul13 x ^^^ gmul9 x = 0 := by decide

set_option maxRecDepth 100000 in
theorem mix_off2 : ∀ x : Byte,
    gmul14 x ^^^ gmul11 (gmul3 x) ^^^ gmul13 (xtime x) ^^^ gmul9 x = 0 := by decide

set_option maxRecDepth 100000 in
theorem mix_off3 : ∀ x : Byte,
    gmul14 x ^^^ gmul11 x ^^^ gmul13 (gmul3 x) ^^^ gmul9 (xtime x) = 0 := by decide

/-- The inverse column mix undoes the column mix. -/
theorem inv_mix_column_mix_column (a b c d : Byte) :
    inv_mix_column (xtime a ^^^ gmul3 b ^^^ c ^^^ d) (a ^^^ xtime b ^^^ gmul3 c ^^^ d)
      (a ^^^ b ^^^ xtime c ^^^ gmul3 d) (gmul3 a ^^^ b ^^^ c ^^^ xtime d) = [a, b, c, d] := by
  have : Std.Associative (α := Byte) (fun x y => x ^^^ y) := ⟨bxor_assoc⟩
  have : Std.Commutative (α := Byte) (fun x y => x ^^^ y) := ⟨bxor_comm⟩
  have e0 : gmul14 (xtime a ^^^ gmul3 b ^^^ c ^^^ d) ^^^ gmul11 (a ^^^ xtime b ^^^ gmul3 c ^^^ d)
      ^^^ gmul13 (a ^^^ b ^^^ xtime c ^^^ gmul3 d) ^^^ gmul9 (gmul3 a ^^^ b ^^^ c ^^^ xtime d)
      = a := by
    calc _ = (gmul14 (xtime a) ^^^ gmul11 a ^^^ gmul13 a ^^^ gmul9 (gmul3 a))
          ^^^ (gmul14 (gmul3 b) ^^^ gmul11 (xtime b) ^^^ gmul13 b ^^^ gmul9 b)
          ^^^ (gmul14 c ^^^ gmul11 (gmul3 c) ^^^ gmul13 (xtime c) ^^^ gmul9 c)
          ^^^ (gmul14 d ^^^ gmul11 d ^^^ gmul13 (gmul3 d) ^^^ gmul9 (xtime d)) := by
            simp only [gmul14_xor, gmul11_xor, gmul13_xor, gmul9_xor]; ac_rfl
      _ = a := by
            rw [mix_diag, mix_off1, mix_off2, mix_off3, bxor_zero, bxor_zero, bxor_zero]
  have e1 : gmul9 (xtime a ^^^ gmul3 b ^^^ c ^^^ d) ^^^ gmul14 (a ^^^ xtime b ^^^ gmul3 c ^^^ d)
      ^^^ gmul11 (a ^^^ b ^^^ xtime c ^^^ gmul3 d) ^^^ gmul13 (gmul3 a ^^^ b ^^^ c ^^^ xtime d)
      = b := by
    calc _ = (gmul14 (xtime b) ^^^ gmul11 b ^^^ gmul13 b ^^^ gmul9 (gmul3 b))
          ^^^ (gmul14 (gmul3 c) ^^^ gmul11 (xtime c) ^^^ gmul13 c ^^^ gmul9 c)
          ^^^ (gmul14 d ^^^ gmul11 (gmul3 d) ^^^ gmul13 (xtime d) ^^^ gmul9 d)
          ^^^ (gmul14 a ^^^ gmul11 a ^^^ gmul13 (gmul3 a) ^^^ gmul9 (xtime a)) := by
            simp only [gmul14_xor, gmul11_xor, gmul13_xor, gmul9_xor]; ac_rfl
      _ = b := by
            rw [mix_diag, mix_off1, mix_off2, mix_off3, bxor_zero, bxor_zero, bxor_zero]
  have e2 : gmul13 (xtime a ^^^ gmul3 b ^^^ c ^^^ d) ^^^ gmul9 (a ^^^ xtime b ^^^ gmul3 c ^^^ d)
      ^^^ gmul14 (a ^^^ b ^^^ xtime c ^^^ gmul3 d) ^^^ gmul11 (gmul3 a ^^^ b ^^^ c ^^^ xtime d)
      = c := by
    calc _ = (gmul14 (xtime c) ^^^ gmul11 c ^^^ gmul13 c ^^^ gmul9 (gmul3 c))
          ^^^ (gmul14 (gmul3 d) ^^^ gmul11 (xtime d) ^^^ gmul13 d ^^^ gmul9 d)
          ^^^ (gmul14 a ^^^ gmul11 (gmul3 a) ^^^ gmul13 (xtime a) ^^^ gmul9 a)
          ^^^ (gmul14 b ^^^ gmul11 b ^^^ gmul13 (gmul3 b) ^^^ gmul9 (xtime b)) := by
            simp only [gmul14_xor, gmul11_xor, gmul13_xor, gmul9_xor]; ac_rfl
      _ = c := by
            rw [mix_diag, mix_off1, mix_off2, mix_off3, bxor_zero, bxor_zero, bxor_zero]
  have e3 : gmul11 (xtime a ^^^ gmul3 b ^^^ c ^^^ d) ^^^ gmul13 (a ^^^ xtime b ^^^ gmul3 c ^^^ d)
      ^^^ gmul9 (a ^^^ b ^^^ xtime c ^^^ gmul3 d) ^^^ gmul14 (gmul3 a ^^^ b ^^^ c ^^^ xtime d)
      = d := by
    calc _ = (gmul14 (xtime d) ^^^ gmul11 d ^^^ gmul13 d ^^^ gmul9 (gmul3 d))
          ^^^ (gmul14 (gmul3 a) ^^^ gmul11 (xtime a) ^^^ gmul13 a ^^^ gmul9 a)
          ^^^ (gmul14 b ^^^ gmul11 (gmul3 b) ^^^ gmul13 (xtime b) ^^^ gmul9 b)
          ^^^ (gmul14 c ^^^ gmul11 c ^^^ gmul13 (gmul3 c) ^^^ gmul9 (xtime c)) := by
            simp only [gmul14_xor, gmul11_xor, gmul13_xor, gmul9_xor]; ac_rfl
      _ = d := by
            rw [mix_diag, mix_off1, mix_off2, mix_off3, bxor_zero, bxor_zero, bxor_zero]
  simp only [inv_mix_column, e0, e1, e2, e3]

/-- A list of sixteen bytes, spelled out. -/
theorem list_of_length_16 (s : List Byte) (h : s.length = 16) :
    ∃ a0 a1 a2 a3 a4 a5 a6 a7 a8 a9 a10 a11 a12 a13 a14 a15 : Byte,
      s = [a0, a1, a2, a3, a4, a5, a6, a7, a8, a9, a10, a11, a12, a13, a14, a15] := by
  rcases s with _ | ⟨a0, _ | ⟨a1, _ | ⟨a2, _ | ⟨a3, _ | ⟨a4, _ | ⟨a5, _ | ⟨a6, _ | ⟨a7, _ | ⟨a8, _ | ⟨a9, _ | ⟨a10, _ | ⟨a11, _ | ⟨a12, _ | ⟨a13, _ | ⟨a14, _ | ⟨a15, rest⟩⟩⟩⟩⟩⟩⟩⟩⟩⟩⟩⟩⟩⟩⟩⟩
  all_goals first
    | (simp only [List.length_cons, List.length_nil] at h; omega)
    | skip
  have hr : rest = [] := by
    simp only [List.length_cons] at h
    exact List.length_eq_zero.mp (by omega)
  subst hr
  exact ⟨a0, a1, a2, a3, a4, a5, a6, a7, a8, a9, a10, a11, a12, a13, a14, a15, rfl⟩

theorem xor_bytes_length (a b : List Byte) : (xor_bytes a b).length = min a.length b.length := by
  simp [xor_bytes]

theorem xor_bytes_cancel (a k : List Byte) (h : a.length ≤ k.length) :
    xor_bytes (xor_bytes a k) k = a := by
  induction a generalizing k with
  | nil => simp [xor_bytes]
  | cons x xs ih =>
    cases k with
    | nil => simp at h
    | cons y ys =>
      have h1 : xs.length ≤ ys.length := by simpa using h
      have := ih ys h1
      simp only [xor_bytes, List.zipWith_cons_cons] at this ⊢
      rw [this, bxor_cancel]

theorem sub_bytes_length (s : List Byte) : (sub_bytes s).length = s.length := by
  simp [sub_bytes]

theorem inv_sub_bytes_sub_bytes (s : List Byte) : inv_sub_bytes (sub_bytes s) = s := by
  simp only [inv_sub_bytes, sub_bytes, List.map_map]
  conv => rhs; rw [← List.map_id s]
  apply List.map_congr_left
  intro b _
  exact inv_sub_byte_sub_byte b

theorem shift_rows_length (s : List Byte) : (shift_rows s).length = 16 := by
  simp [shift_rows]

theorem inv_shift_rows_shift_rows (s : List Byte) (h : s.length = 16) :
    inv_shift_rows (shift_rows s) = s := by
  obtain ⟨a0, a1, a2, a3, a4, a5, a6, a7, a8, a9, a10, a11, a12, a13, a14, a15, rfl⟩ :=
    list_of_length_16 s h
  rfl

theorem mix_columns_length (s : List Byte) : (mix_columns s).length = 16 := by
  simp [mix_columns, mix_column]

theorem inv_mix_columns_mix_columns (s : List Byte) (h : s.length = 16) :
    inv_mix_columns (mix_columns s) = s := by
  obtain ⟨a0, a1, a2, a3, a4, a5, a6, a7, a8, a9, a10, a11, a12, a13, a14, a15, rfl⟩ :=
    list_of_length_16 s h
  simp [mix_columns, inv_mix_columns, mix_column, inv_mix_column_mix_column]

/-- The round function keeps a state of sixteen bytes and the inverse rounds
undo the rounds, for round keys of sixteen bytes. -/
theorem dec_rounds_enc_rounds (ks : List (List Byte)) (hk : ∀ k ∈ ks, k.length = 16)
    (s : List Byte) (hs : s.length = 16) :
    (enc_rounds ks s).length = 16 ∧ dec_rounds ks (enc_rounds ks s) = s := by
  induction ks generalizing s with
  | nil => exact ⟨hs, rfl⟩
  | cons k ks ih =>
    have hk16 : k.length = 16 := hk k (List.mem_cons_self _ _)
    cases ks with
    | nil =>
      refine ⟨?_, ?_⟩
      · simp [enc_rounds, xor_bytes_length, shift_rows_length, hk16]
      · simp only [enc_rounds, dec_rounds]
        rw [xor_bytes_cancel _ _ (by simp [shift_rows_length, hk16]),
          inv_shift_rows_shift_rows _ (by simp [sub_bytes_length, hs]),
          inv_sub_bytes_sub_bytes]
    | cons k1 ks1 =>
      have hlen : (xor_bytes (mix_columns (shift_rows (sub_bytes s))) k).length = 16 := by
        simp [xor_bytes_length, mix_columns_length, hk16]
      have ih1 := ih (fun x hx => hk x (List.mem_cons_of_mem _ hx)) _ hlen
      refine ⟨?_, ?_⟩
      · simpa only [enc_rounds] using ih1.1
      · simp only [enc_rounds, dec_rounds]
        rw [ih1.2, xor_bytes_cancel _ _ (by simp [mix_columns_length, hk16]),
          inv_mix_columns_mix_columns _ (shift_rows_length _),
          inv_shift_rows_shift_rows _ (by simp [sub_bytes_length, hs]),
          inv_sub_bytes_sub_bytes]

/-- On a 16-byte block, with round keys of sixteen bytes, the cipher yields a
16-byte block and the inverse cipher recovers the input. -/
theorem aes_decrypt_block_encrypt_block (rks : List (List Byte))
    (hk : ∀ k ∈ rks, k.length = 16) (x : List Byte) (hx : x.length = 16) :
    (aes_encrypt_block rks x).length = 16 ∧
    aes_decrypt_block rks (aes_encrypt_block rks x) = x := by
  cases rks with
  | nil => exact ⟨hx, rfl⟩
  | cons k0 ks =>
    have hk0 : k0.length = 16 := hk k0 (List.mem_cons_self _ _)
    have hlen : (xor_bytes x k0).length = 16 := by simp [xor_bytes_length, hx, hk0]
    have h := dec_rounds_enc_rounds ks (fun k hm => hk k (List.mem_cons_of_mem _ hm)) _ hlen
    refine ⟨h.1, ?_⟩
    simp only [aes_encrypt_block, aes_decrypt_block]
    rw [h.2, xor_bytes_cancel _ _ (by omega)]

theorem next_round_key_length (rc : Byte) (k : List Byte) (h : k.length = 16) :
    (next_round_key rc k).length = 16 := by
  simp [next_round_key, xor_bytes_length, h]

theorem expand_from_length (rcs : List Byte) (k : List Byte) (h : k.length = 16) :
    ∀ x ∈ expand_from k rcs, x.length = 16 := by
  induction rcs generalizing k with
  | nil => simp [expand_from]
  | cons rc rest ih =>
    intro x hx
    simp only [expand_from, List.mem_cons] at hx
    rcases hx with rfl | hx
    · exact next_round_key_length rc k h
    · exact ih _ (next_round_key_length rc k h) x hx

theorem key_expansion_length (key : List Byte) (h : key.length = 16) :
    ∀ x ∈ key_expansion key, x.length = 16 := by
  intro x hx
  simp only [key_expansion, List.mem_cons] at hx
  rcases hx with rfl | hx
  · exact h
  · exact expand_from_length _ key h x hx

/-- CBC decryption of the CBC encryption of `n` whole blocks gives the blocks
back; the ciphertext has as many bytes. -/
theorem cbc_dec_enc_blocks (rks : List (List Byte)) (hk : ∀ k ∈ rks, k.length = 16) (n : Nat)
    (chain p : List Byte) (hc : chain.length = 16) (hp : 16 * n ≤ p.length) :
    (cbc_enc_blocks rks n chain p).length = 16 * n ∧
    cbc_dec_blocks rks n chain (cbc_enc_blocks rks n chain p) = p.take (16 * n) := by
  induction n generalizing chain p with
  | zero => simp [cbc_enc_blocks, cbc_dec_blocks]
  | succ n ih =>
    have ht : (p.take 16).length = 16 := by simp; omega
    have hx : (xor_bytes (p.take 16) chain).length = 16 := by
      rw [xor_bytes_length, ht, hc]; rfl
    obtain ⟨hl, hd⟩ := aes_decrypt_block_encrypt_block rks hk _ hx
    have hdrop : 16 * n ≤ (p.drop 16).length := by simp; omega
    obtain ⟨il, id⟩ := ih (aes_encrypt_block rks (xor_bytes (p.take 16) chain)) (p.drop 16) hl hdrop
    refine ⟨?_, ?_⟩
    · simp only [cbc_enc_blocks, List.length_append, hl, il]; omega
    · simp only [cbc_enc_blocks, cbc_dec_blocks]
      rw [List.take_left' hl, List.drop_left' hl, hd, id,
        xor_bytes_cancel _ _ (by omega)]
      rw [show 16 * (n + 1) = 16 + 16 * n by omega, List.take_add]

theorem cbc_enc_blocks_length (rks : List (List Byte)) (hk : ∀ k ∈ rks, k.length = 16) (n : Nat)
    (chain p : List Byte) (hc : chain.length = 16) (hp : 16 * n ≤ p.length) :
    (cbc_enc_blocks rks n chain p).length = 16 * n :=
  (cbc_dec_enc_blocks rks hk n chain p hc hp).1

theorem read_bytes_exact (n : Nat) (s beyond : List Byte) (h : s.length = n) :
    read_bytes n s beyond = s := by
  subst h
  simp [read_bytes, List.take_append_eq_append_take]

theorem read_bytes_length (n : Nat) (s beyond : List Byte) : (read_bytes n s beyond).length = n := by
  simp [read_bytes]
  omega

theorem dec_rounds_length (ks : List (List Byte)) (s : List Byte) (hs : s.length = 16) :
    (dec_rounds ks s).length = 16 := by
  cases ks with
  | nil => exact hs
  | cons k ks1 =>
    cases ks1 with
    | nil => simp [dec_rounds, inv_sub_bytes, inv_shift_rows]
    | cons k1 ks2 => simp [dec_rounds, inv_sub_bytes, inv_shift_rows]

theorem aes_decrypt_block_length (rks : List (List Byte)) (hk : ∀ k ∈ rks, k.length = 16)
    (x : List Byte) (hx : x.length = 16) : (aes_decrypt_block rks x).length = 16 := by
  cases rks with
  | nil => exact hx
  | cons k0 ks =>
    have hk0 : k0.length = 16 := hk k0 (List.mem_cons_self _ _)
    simp [aes_decrypt_block, xor_bytes_length, dec_rounds_length ks x hx, hk0]

theorem cbc_dec_blocks_length (rks : List (List Byte)) (hk : ∀ k ∈ rks, k.length = 16) (n : Nat)
    (chain p : List Byte) (hc : chain.length = 16) (hp : 16 * n ≤ p.length) :
    (cbc_dec_blocks rks n chain p).length = 16 * n := by
  induction n generalizing chain p with
  | zero => simp [cbc_dec_blocks]
  | succ n ih =>
    have ht : (p.take 16).length = 16 := by simp; omega
    have hdrop : 16 * n ≤ (p.drop 16).length := by simp; omega
    have hd := aes_decrypt_block_length rks hk _ ht
    simp only [cbc_dec_blocks, List.length_append, xor_bytes_length, hd, hc,
      ih (p.take 16) (p.drop 16) ht hdrop]
    omega

/-- The context after `EVP_CipherInit`: eleven round keys of sixteen bytes, a
chaining block of sixteen bytes, nothing held back. -/
theorem EVP_CipherInit_shape (env : EvpEnv) (key : List Byte) (iv : Option (List Byte)) :
    (∀ k ∈ (EVP_CipherInit env key iv).rks, k.length = 16) ∧
    (EVP_CipherInit env key iv).iv.length = 16 ∧ (EVP_CipherInit env key iv).buf = [] := by
  refine ⟨key_expansion_length _ (read_bytes_length _ _ _), ?_, rfl⟩
  cases iv with
  | none => simp [EVP_CipherInit]
  | some v => simp [EVP_CipherInit, read_bytes_length]

/-- What the one update call of `uc_crypto_aes_encrypt` stores and holds back. -/
theorem EVP_EncryptUpdate_shape (env : EvpEnv) (key : List Byte) (iv : Option (List Byte))
    (t : List Byte) :
    (EVP_EncryptUpdate (EVP_CipherInit env key iv) t).2.length = 16 * (t.length / 16) ∧
    (EVP_EncryptUpdate (EVP_CipherInit env key iv) t).1.buf.length = t.length % 16 := by
  obtain ⟨hk, hiv, hb⟩ := EVP_CipherInit_shape env key iv
  simp only [EVP_EncryptUpdate, hb, List.nil_append]
  refine ⟨cbc_enc_blocks_length _ hk _ _ _ hiv (Nat.mul_div_le _ _), ?_⟩
  simp only [List.length_drop]
  omega

/-- What the one update call of `uc_crypto_aes_decrypt` stores and holds back. -/
theorem EVP_DecryptUpdate_shape (env : EvpEnv) (key : List Byte) (iv : Option (List Byte))
    (t : List Byte) :
    (EVP_DecryptUpdate (EVP_CipherInit env key iv) t).2.length = 16 * (t.length / 16) ∧
    (EVP_DecryptUpdate (EVP_CipherInit env key iv) t).1.buf.length = t.length % 16 := by
  obtain ⟨hk, hiv, hb⟩ := EVP_CipherInit_shape env key iv
  simp only [EVP_DecryptUpdate, hb, List.nil_append]
  refine ⟨cbc_dec_blocks_length _ hk _ _ _ hiv (Nat.mul_div_le _ _), ?_⟩
  simp only [List.length_drop]
  omega

/-- With a working library, string key and text and a usable IV argument,
`uc_crypto_aes_encrypt` is decided by the length of the text alone: 144 bytes
or more overflow the array, otherwise whole blocks are stored and the value is
`NULL` exactly when the length is no multiple of 16. -/
theorem uc_crypto_aes_encrypt_cases (env : EvpEnv)
    (henv : env.fetch_ok = true ∧ env.ctx_ok = true ∧ env.init_ok = true)
    (k t : List Byte) (iv : UcValue) (ivp : Option (List Byte)) (hiv : iv_arg iv = some ivp) :
    uc_crypto_aes_encrypt env (UcValue.string k) iv (UcValue.string t) =
      if 144 ≤ t.length then
        AesRet.overflow (EVP_EncryptUpdate (EVP_CipherInit env k ivp) t).2
      else if t.length % 16 = 0 then
        AesRet.ret (EVP_EncryptUpdate (EVP_CipherInit env k ivp) t).2
          (some (UcValue.string (EVP_EncryptUpdate (EVP_CipherInit env k ivp) t).2))
      else AesRet.ret (EVP_EncryptUpdate (EVP_CipherInit env k ivp) t).2 none := by
  obtain ⟨hl, hb⟩ := EVP_EncryptUpdate_shape env k ivp t
  obtain ⟨e1, e2, e3⟩ := henv
  simp only [uc_crypto_aes_encrypt, hiv, e1, e2, e3, EVP_CipherFinal_ex, hl, hb]
  by_cases h144 : 144 ≤ t.length
  · have : 128 < 16 * (t.length / 16) := by omega
    simp [h144, this]
  · have : ¬ 128 < 16 * (t.length / 16) := by omega
    by_cases hm : t.length % 16 = 0
    · simp [h144, this, hm, hl]
    · simp [h144, this, hm]

theorem uc_crypto_aes_decrypt_cases (env : EvpEnv)
    (henv : env.fetch_ok = true ∧ env.ctx_ok = true ∧ env.init_ok = true)
    (k t : List Byte) (iv : UcValue) (ivp : Option (List Byte)) (hiv : iv_arg iv = some ivp) :
    uc_crypto_aes_decrypt env (UcValue.string k) iv (UcValue.string t) =
      if 144 ≤ t.length then
        AesRet.overflow (EVP_DecryptUpdate (EVP_CipherInit env k ivp) t).2
      else if t.length % 16 = 0 then
        AesRet.ret (EVP_DecryptUpdate (EVP_CipherInit env k ivp) t).2
          (some (UcValue.string (EVP_DecryptUpdate (EVP_CipherInit env k ivp) t).2))
      else AesRet.ret (EVP_DecryptUpdate (EVP_CipherInit env k ivp) t).2 none := by
  obtain ⟨hl, hb⟩ := EVP_DecryptUpdate_shape env k ivp t
  obtain ⟨e1, e2, e3⟩ := henv
  simp only [uc_crypto_aes_decrypt, hiv, e1, e2, e3, EVP_CipherFinal_ex, hl, hb]
  by_cases h144 : 144 ≤ t.length
  · have : 128 < 16 * (t.length / 16) := by omega
    simp [h144, this]
  · have : ¬ 128 < 16 * (t.length / 16) := by omega
    by_cases hm : t.length % 16 = 0
    · simp [h144, this, hm, hl]
    · simp [h144, this, hm]

/-- Inputs of 144 bytes or more: no length check is made, and the update call
stores every whole block, more than 128 bytes, through the 128-byte array. -/
theorem aes_oversized_input_stored (env : EvpEnv)
    (henv : env.fetch_ok = true ∧ env.ctx_ok = true ∧ env.init_ok = true)
    (k v t : List Byte) (h : 144 ≤ t.length) :
    (∃ stored, uc_crypto_aes_encrypt env (UcValue.string k) (UcValue.string v) (UcValue.string t)
        = AesRet.overflow stored ∧ stored.length = 16 * (t.length / 16)) ∧
    (∃ stored, uc_crypto_aes_decrypt env (UcValue.string k) (UcValue.string v) (UcValue.string t)
        = AesRet.overflow stored ∧ stored.length = 16 * (t.length / 16)) := by
  have e1 := uc_crypto_aes_encrypt_cases env henv k t (UcValue.string v) (some v) rfl
  have e2 := uc_crypto_aes_decrypt_cases env henv k t (UcValue.string v) (some v) rfl
  simp only [h, if_true] at e1 e2
  exact ⟨⟨_, e1, (EVP_EncryptUpdate_shape _ _ _ _).1⟩, ⟨_, e2, (EVP_DecryptUpdate_shape _ _ _ _).1⟩⟩

/-- Inputs of 129 to 143 bytes are not rejected up front either: eight blocks
are processed and stored before the final call fails. -/
theorem aes_oversized_input_processed (env : EvpEnv)
    (henv : env.fetch_ok = true ∧ env.ctx_ok = true ∧ env.init_ok = true)
    (k v t : List Byte) (h1 : 128 < t.length) (h2 : t.length < 144) :
    (∃ stored, uc_crypto_aes_encrypt env (UcValue.string k) (UcValue.string v) (UcValue.string t)
        = AesRet.ret stored none ∧ stored.length = 128) ∧
    (∃ stored, uc_crypto_aes_decrypt env (UcValue.string k) (UcValue.string v) (UcValue.string t)
        = AesRet.ret stored none ∧ stored.length = 128) := by
  have hno : ¬ 144 ≤ t.length := by omega
  have hm : ¬ t.length % 16 = 0 := by omega
  have e1 := uc_crypto_aes_encrypt_cases env henv k t (UcValue.string v) (some v) rfl
  have e2 := uc_crypto_aes_decrypt_cases env henv k t (UcValue.string v) (some v) rfl
  simp only [hno, hm, if_false] at e1 e2
  refine ⟨⟨_, e1, ?_⟩, ⟨_, e2, ?_⟩⟩
  · rw [(EVP_EncryptUpdate_shape _ _ _ _).1]; omega
  · rw [(EVP_DecryptUpdate_shape _ _ _ _).1]; omega

/-- C4 (the code at an oversized input): with a 16-byte key and IV and 144
bytes of input, `uc_crypto_aes_encrypt` and `uc_crypto_aes_decrypt` make no
length check; the update call stores 144 bytes through the 128-byte array. -/
theorem aes_oversized_input_overflows :
    (∃ stored,
      uc_crypto_aes_encrypt evp_ok (UcValue.string (List.replicate 16 0))
        (UcValue.string (List.replicate 16 0)) (UcValue.string (List.replicate 144 0))
        = AesRet.overflow stored ∧ stored.length = 144) ∧
    (∃ stored,
      uc_crypto_aes_decrypt evp_ok (UcValue.string (List.replicate 16 0))
        (UcValue.string (List.replicate 16 0)) (UcValue.string (List.replicate 144 0))
        = AesRet.overflow stored ∧ stored.length = 144) := by
  have h := aes_oversized_input_stored evp_ok ⟨rfl, rfl, rfl⟩ (List.replicate 16 0)
    (List.replicate 16 0) (List.replicate 144 0) (by simp)
  simpa using h

/-- C5: with a working library, a 16-byte key, a 16-byte IV and a plaintext of
at most 128 bytes whose length is a multiple of 16, `uc_crypto_aes_encrypt`
returns a string of the same length, and `uc_crypto_aes_decrypt` on that
string, under the same key and IV, returns the plaintext. -/
theorem aes_decrypt_encrypt (env1 env2 : EvpEnv)
    (h1 : env1.fetch_ok = true ∧ env1.ctx_ok = true ∧ env1.init_ok = true)
    (h2 : env2.fetch_ok = true ∧ env2.ctx_ok = true ∧ env2.init_ok = true)
    (key iv p : List Byte) (hk : key.length = 16) (hiv : iv.length = 16)
    (hp : p.length % 16 = 0) (hle : p.length ≤ 128) :
    ∃ c, uc_crypto_aes_encrypt env1 (UcValue.string key) (UcValue.string iv) (UcValue.string p)
          = AesRet.ret c (some (UcValue.string c)) ∧
      c.length = p.length ∧
      uc_crypto_aes_decrypt env2 (UcValue.string key) (UcValue.string iv) (UcValue.string c)
          = AesRet.ret p (some (UcValue.string p)) := by
  have hno : ¬ 144 ≤ p.length := by omega
  have hlen := (EVP_EncryptUpdate_shape env1 key (some iv) p).1
  have hclen : (EVP_EncryptUpdate (EVP_CipherInit env1 key (some iv)) p).2.length = p.length := by
    rw [hlen]; omega
  refine ⟨(EVP_EncryptUpdate (EVP_CipherInit env1 key (some iv)) p).2, ?_, hclen, ?_⟩
  · rw [uc_crypto_aes_encrypt_cases env1 h1 key p (UcValue.string iv) (some iv) rfl]
    simp only [hno, hp, if_false, if_true]
  · rw [uc_crypto_aes_decrypt_cases env2 h2 key _ (UcValue.string iv) (some iv) rfl]
    have hno2 : ¬ 144 ≤ (EVP_EncryptUpdate (EVP_CipherInit env1 key (some iv)) p).2.length := by
      rw [hclen]; exact hno
    have hp2 : (EVP_EncryptUpdate (EVP_CipherInit env1 key (some iv)) p).2.length % 16 = 0 := by
      rw [hclen]; exact hp
    simp only [hno2, hp2, if_false, if_true]
    have hrt : (EVP_DecryptUpdate (EVP_CipherInit env2 key (some iv))
        (EVP_EncryptUpdate (EVP_CipherInit env1 key (some iv)) p).2).2 = p := by
      have hks := key_expansion_length key hk
      simp only [EVP_DecryptUpdate, EVP_EncryptUpdate, EVP_CipherInit, List.nil_append,
        read_bytes_exact 16 key _ hk, read_bytes_exact 16 iv _ hiv]
      have hd := cbc_dec_enc_blocks (key_expansion key) hks (p.length / 16) iv p hiv
        (Nat.mul_div_le _ _)
      rw [hd.1, Nat.mul_div_cancel_left _ (by decide : 0 < 16), hd.2]
      apply List.take_of_length_le
      omega
    rw [hrt]

/-- C5 at the all-zero key and IV and two blocks of zeros. -/
theorem aes_decrypt_encrypt_witness :
    ((List.replicate 16 (0 : Byte)).length = 16 ∧ (List.replicate 32 (0 : Byte)).length % 16 = 0 ∧
      (List.replicate 32 (0 : Byte)).length ≤ 128) ∧
    ∃ c, uc_crypto_aes_encrypt evp_ok (UcValue.string (List.replicate 16 0))
            (UcValue.string (List.replicate 16 0)) (UcValue.string (List.replicate 32 0))
          = AesRet.ret c (some (UcValue.string c)) ∧
      c.length = (List.replicate 32 (0 : Byte)).length ∧
      uc_crypto_aes_decrypt evp_ok (UcValue.string (List.replicate 16 0))
            (UcValue.string (List.replicate 16 0)) (UcValue.string c)
          = AesRet.ret (List.replicate 32 0) (some (UcValue.string (List.replicate 32 0))) :=
  ⟨by decide,
   aes_decrypt_encrypt evp_ok evp_ok ⟨rfl, rfl, rfl⟩ ⟨rfl, rfl, rfl⟩ (List.replicate 16 0)
     (List.replicate 16 0) (List.replicate 32 0) (by decide) (by decide) (by decide) (by decide)⟩

/-- C6: whatever the library answers and whatever key and IV arguments are
passed, an input of at most 128 bytes whose length is no multiple of 16 makes
`uc_crypto_aes_encrypt` and `uc_crypto_aes_decrypt` return `NULL`: no padded
and no truncated result is produced, and nothing is stored past the array. -/
theorem aes_rejects_unaligned (env : EvpEnv) (key iv : UcValue) (t : List Byte)
    (hle : t.length ≤ 128) (hm : t.length % 16 ≠ 0) :
    (∃ stored, uc_crypto_aes_encrypt env key iv (UcValue.string t) = AesRet.ret stored none ∧
        stored.length ≤ 128) ∧
    (∃ stored, uc_crypto_aes_decrypt env key iv (UcValue.string t) = AesRet.ret stored none ∧
        stored.length ≤ 128) := by
  have hno : ¬ 144 ≤ t.length := by omega
  by_cases henv : env.fetch_ok = true ∧ env.ctx_ok = true ∧ env.init_ok = true
  · cases hiv : iv_arg iv with
    | none =>
      cases key <;> exact ⟨⟨[], by simp [uc_crypto_aes_encrypt, hiv]⟩,
        ⟨[], by simp [uc_crypto_aes_decrypt, hiv]⟩⟩
    | some ivp =>
      cases key with
      | string k =>
        have e1 := uc_crypto_aes_encrypt_cases env henv k t iv ivp hiv
        have e2 := uc_crypto_aes_decrypt_cases env henv k t iv ivp hiv
        simp only [hno, hm, if_false] at e1 e2
        refine ⟨⟨_, e1, ?_⟩, ⟨_, e2, ?_⟩⟩
        · rw [(EVP_EncryptUpdate_shape _ _ _ _).1]; omega
        · rw [(EVP_DecryptUpdate_shape _ _ _ _).1]; omega
      | _ => exact ⟨⟨[], by simp [uc_crypto_aes_encrypt]⟩, ⟨[], by simp [uc_crypto_aes_decrypt]⟩⟩
  · have hbad : env.fetch_ok = false ∨ env.ctx_ok = false ∨ env.init_ok = false := by
      cases h1 : env.fetch_ok <;> cases h2 : env.ctx_ok <;> cases h3 : env.init_ok <;>
        simp_all
    cases hiv : iv_arg iv with
    | none =>
      cases key <;> exact ⟨⟨[], by simp [uc_crypto_aes_encrypt, hiv]⟩,
        ⟨[], by simp [uc_crypto_aes_decrypt, hiv]⟩⟩
    | some ivp =>
      cases key with
      | string k =>
        refine ⟨⟨[], ?_, by simp⟩, ⟨[], ?_, by simp⟩⟩
        · simp only [uc_crypto_aes_encrypt, hiv]
          rcases hbad with h | h | h <;> simp [h]
        · simp only [uc_crypto_aes_decrypt, hiv]
          rcases hbad with h | h | h <;> simp [h]
      | _ => exact ⟨⟨[], by simp [uc_crypto_aes_encrypt]⟩, ⟨[], by simp [uc_crypto_aes_decrypt]⟩⟩

/-- C6 at twenty bytes of input under the all-zero key and IV. -/
theorem aes_rejects_unaligned_witness :
    ((List.replicate 20 (0 : Byte)).length ≤ 128 ∧ (List.replicate 20 (0 : Byte)).length % 16 ≠ 0) ∧
    (∃ stored, uc_crypto_aes_encrypt evp_ok (UcValue.string (List.replicate 16 0))
        (UcValue.string (List.replicate 16 0)) (UcValue.string (List.replicate 20 0))
          = AesRet.ret stored none ∧ stored.length ≤ 128) ∧
    (∃ stored, uc_crypto_aes_decrypt evp_ok (UcValue.string (List.replicate 16 0))
        (UcValue.string (List.replicate 16 0)) (UcValue.string (List.replicate 20 0))
          = AesRet.ret stored none ∧ stored.length ≤ 128) :=
  ⟨by decide,
   aes_rejects_unaligned evp_ok (UcValue.string (List.replicate 16 0))
     (UcValue.string (List.replicate 16 0)) (List.replicate 20 0) (by decide) (by decide)⟩

/-! ## crypto.c: properties of the Diffie-Hellman functions -/

theorem num_bytes_steps_zero (s : Nat) : num_bytes_steps s 0 = 0 := by
  cases s <;> simp [num_bytes_steps]

/-- The count of `num_bytes_steps` is the number of base-256 digits. -/
theorem num_bytes_steps_spec (s n : Nat) (h : n ≤ s) :
    n < 256 ^ num_bytes_steps s n ∧ (n ≠ 0 → 256 ^ (num_bytes_steps s n - 1) ≤ n) := by
  induction s generalizing n with
  | zero =>
    have : n = 0 := by omega
    subst this
    simp [num_bytes_steps]
  | succ s ih =>
    by_cases hn : n = 0
    · subst hn; simp [num_bytes_steps]
    · have hle : n / 256 ≤ s := by omega
      obtain ⟨h1, h2⟩ := ih (n / 256) hle
      simp only [num_bytes_steps, hn, if_false, Nat.add_sub_cancel]
      refine ⟨?_, fun _ => ?_⟩
      · rw [Nat.pow_succ]; omega
      · by_cases hz : n / 256 = 0
        · rw [hz, num_bytes_steps_zero]; simp; omega
        · have h3 := h2 hz
          have hk : num_bytes_steps s (n / 256) ≠ 0 := by
            intro h0
            rw [h0] at h1
            simp at h1
            exact hz h1
          obtain ⟨k, hk1⟩ := Nat.exists_eq_succ_of_ne_zero hk
          rw [hk1] at h3 ⊢
          simp only [Nat.succ_eq_add_one, Nat.add_sub_cancel] at h3
          rw [Nat.pow_succ]
          omega

theorem BN_num_bytes_spec (n : Nat) :
    n < 256 ^ BN_num_bytes n ∧ (n ≠ 0 → 256 ^ (BN_num_bytes n - 1) ≤ n) :=
  num_bytes_steps_spec n n (Nat.le_refl n)

theorem BN_num_bytes_eq (n k : Nat) (h1 : 256 ^ k ≤ n) (h2 : n < 256 ^ (k + 1)) :
    BN_num_bytes n = k + 1 := by
  obtain ⟨a, b⟩ := BN_num_bytes_spec n
  have hn : n ≠ 0 := by
    have : 0 < 256 ^ k := Nat.pow_pos (by decide)
    omega
  have b1 := b hn
  by_contra hne
  rcases Nat.lt_or_gt_of_ne hne with hlt | hgt
  · have : 256 ^ BN_num_bytes n ≤ 256 ^ k := Nat.pow_le_pow_right (by decide) (by omega)
    omega
  · have : 256 ^ (k + 1) ≤ 256 ^ (BN_num_bytes n - 1) :=
      Nat.pow_le_pow_right (by decide) (by omega)
    omega

theorem BN_num_bytes_le (n k : Nat) (h : n < 256 ^ k) : BN_num_bytes n ≤ k := by
  by_cases hn : n = 0
  · subst hn; simp [BN_num_bytes, num_bytes_steps_zero]
  · have b1 := (BN_num_bytes_spec n).2 hn
    by_contra hgt
    have : 256 ^ k ≤ 256 ^ (BN_num_bytes n - 1) := Nat.pow_le_pow_right (by decide) (by omega)
    omega

set_option maxRecDepth 100000 in
theorem dh1536_p_value : BN_bin2bn dh1536_p = rfc3526_modp_1536 := by decide

set_option exponentiation.threshold 2000 in
theorem rfc3526_modp_1536_bytes : BN_num_bytes rfc3526_modp_1536 = 192 := by
  apply BN_num_bytes_eq rfc3526_modp_1536 191
  · unfold rfc3526_modp_1536; norm_num
  · unfold rfc3526_modp_1536; norm_num

theorem BN_bn2binpad_length (len n : Nat) : (BN_bn2binpad len n).length = len := by
  induction len generalizing n with
  | zero => rfl
  | succ len ih => simp [BN_bn2binpad, ih]

theorem BN_bn2bin_length (n : Nat) : (BN_bn2bin n).length = BN_num_bytes n :=
  BN_bn2binpad_length _ _

/-- Square-and-multiply computes the power modulo `m`. -/
theorem mod_exp_steps_eq (steps b e m : Nat) (h : e ≤ steps) :
    mod_exp_steps steps b e m = b ^ e % m := by
  induction steps generalizing b e with
  | zero =>
    have : e = 0 := by omega
    subst this
    simp [mod_exp_steps]
  | succ steps ih =>
    by_cases he : e = 0
    · subst he; simp [mod_exp_steps]
    · have hle : e / 2 ≤ steps := by omega
      have hsq : (b * b % m) ^ (e / 2) % m = b ^ (2 * (e / 2)) % m := by
        rw [← Nat.pow_mod, pow_mul, pow_two]
      by_cases hodd : e % 2 = 1
      · simp only [mod_exp_steps, he, hodd, if_false, if_true, ih _ _ hle, hsq]
        have he2 : e = 2 * (e / 2) + 1 := by omega
        conv => rhs; rw [he2, pow_succ, Nat.mul_comm]
        rw [Nat.mul_mod_mod]
      · simp only [mod_exp_steps, he, hodd, if_false, ih _ _ hle, hsq]
        have he2 : e = 2 * (e / 2) := by omega
        conv => rhs; rw [he2]

theorem mod_exp_eq (b e m : Nat) : mod_exp b e m = b ^ e % m :=
  mod_exp_steps_eq e b e m (Nat.le_refl e)

set_option exponentiation.threshold 2000 in
theorem rfc3526_modp_1536_lt : rfc3526_modp_1536 < 256 ^ 192 := by
  unfold rfc3526_modp_1536; norm_num

theorem BN_num_bytes_le_192 (z : Nat) (h : z < rfc3526_modp_1536) : BN_num_bytes z ≤ 192 :=
  BN_num_bytes_le z 192 (Nat.lt_trans h rfc3526_modp_1536_lt)

theorem shared_string_length (z : Nat) (h : z < rfc3526_modp_1536) :
    (shared_string z).length = 192 := by
  have := BN_num_bytes_le_192 z h
  simp only [shared_string, List.length_append, BN_bn2bin_length, List.length_replicate]
  omega

theorem pkey_create_ok (key : KeyArg) :
    pkey_create true key =
      some { p := rfc3526_modp_1536, g := 2,
             priv_key := match key with
               | KeyArg.priv v => some v
               | _ => none,
             pub_key := match key with
               | KeyArg.pub v => some v
               | _ => none } := by
  have hg : BN_bin2bn dh1536_g = 2 := by decide
  simp only [pkey_create, if_true, dh1536_p_value, hg]

/-- The derivation step over a modulus `P` of 192 bytes, for key objects of
the shape `pkey_create` builds. -/
theorem uc_crypto_dh_sharedkey_derive_eq (env : DhEnv) (P g x y : Nat) (hpos : 0 < P)
    (hb : BN_num_bytes P = 192) (hlt : ∀ z, z < P → BN_num_bytes z ≤ 192)
    (h5 : env.ctx_ok = true) (h6 : env.derive_init_ok = true) :
    uc_crypto_dh_sharedkey_derive env
        { p := P, g := g, priv_key := some x, pub_key := none }
        { p := P, g := g, priv_key := none, pub_key := some y } =
      if env.peer_ok y = true ∧ ¬ (y ^ x % P ≤ 1 ∨ y ^ x % P = P - 1)
      then some (UcValue.string (shared_string (y ^ x % P)))
      else none := by
  have hz : y ^ x % P < P := Nat.mod_lt _ hpos
  have hlen := hlt _ hz
  simp only [uc_crypto_dh_sharedkey_derive, h5, h6, DH_size, hb, EVP_PKEY_derive,
    DH_compute_key, mod_exp_eq]
  by_cases hp : env.peer_ok y = true
  · by_cases hbad : y ^ x % P ≤ 1 ∨ y ^ x % P = P - 1
    · simp [hp, hbad]
    · simp only [hp, hbad, not_false_eq_true, and_self, if_true, if_false, not_true_eq_false,
        Nat.lt_irrefl]
      simp only [shared_string, BN_bn2bin_length]
      congr 2
      rw [List.take_append_of_le_length (by
        simp only [List.length_append, BN_bn2bin_length, List.length_replicate]; omega)]
      apply List.take_of_length_le
      simp only [List.length_append, BN_bn2bin_length, List.length_replicate]
      omega
  · simp [hp]

/-- With its resources available, `uc_crypto_dh_sharedkey` on two strings is
decided by the peer validation and the shared value. -/
theorem uc_crypto_dh_sharedkey_eq (env : DhEnv) (hres : dh_resources_ok env)
    (privp peerp : List Byte) :
    uc_crypto_dh_sharedkey env (UcValue.string privp) (UcValue.string peerp) =
      if env.peer_ok (BN_bin2bn peerp) = true ∧
          ¬ (BN_bin2bn peerp ^ BN_bin2bn privp % rfc3526_modp_1536 ≤ 1 ∨
             BN_bin2bn peerp ^ BN_bin2bn privp % rfc3526_modp_1536 = rfc3526_modp_1536 - 1)
      then some (UcValue.string
        (shared_string (BN_bin2bn peerp ^ BN_bin2bn privp % rfc3526_modp_1536)))
      else none := by
  obtain ⟨e1, e2, e3, e4, e5, e6⟩ := hres
  have hpos : 0 < rfc3526_modp_1536 := by unfold rfc3526_modp_1536; norm_num
  simp only [uc_crypto_dh_sharedkey, e1, e2, e3, e4, pkey_create_ok, not_true_eq_false,
    if_false]
  exact uc_crypto_dh_sharedkey_derive_eq env rfc3526_modp_1536 2 _ _ hpos
    rfc3526_modp_1536_bytes BN_num_bytes_le_192 e5 e6

set_option maxRecDepth 100000 in
set_option exponentiation.threshold 2000 in
/-- C9: the bytes of `dh1536_p` are 192 in number and denote, most significant
byte first, the prime of RFC 3526 group 5 (given by its printed hexadecimal
value, which is 2^1536 - 2^1472 - 1 + 2^64 * (floor(2^1406 pi) + 741804)), a
number of 1536 bits (at least 2^1535, below 2^1536); the generator is the one byte 0x02; and every key object
`pkey_create` returns, for key generation and for either side of a derivation,
carries this modulus and generator, which key generation keeps. -/
theorem dh_group_is_rfc3526_group5 :
    dh1536_p.length = 192 ∧
    BN_bin2bn dh1536_p = rfc3526_modp_1536 ∧
    rfc3526_modp_1536 = 2 ^ 1536 - 2 ^ 1472 - 1 + 2 ^ 64 *
      (0xc90fdaa22168c234c4c6628b80dc1cd129024e088a67cc74020bbea63b139b22514a08798e3404ddef9519b3cd3a431b302b0a6df25f14374fe1356d6d51c245e485b576625e7ec6f44c42e9a637ed6b0bff5cb6f406b7edee386bfb5a899fa5ae9f24117c4b1fe649286651ece45b3dc2007cb8a163bf0598da48361c55d39a69163fa8fd24cf5f83655d23dca3ad961c62f356208552bb9ed529077096966d670c354e4abc9804f1746c08ca18217c
        + 741804) ∧
    (2 ^ 1535 ≤ BN_bin2bn dh1536_p ∧ BN_bin2bn dh1536_p < 2 ^ 1536) ∧
    dh1536_g = [0x02] ∧ BN_bin2bn dh1536_g = 2 ∧
    (∀ (lib_ok : Bool) (key : KeyArg) (pk : EVP_PKEY), pkey_create lib_ok key = some pk →
      pk.p = rfc3526_modp_1536 ∧ pk.g = 2) ∧
    (∀ (env : KeygenEnv) (params pk : EVP_PKEY),
      pkey_create env.pkey_ok KeyArg.no_key = some params →
      EVP_PKEY_generate params env.generated = some pk →
      pk.p = rfc3526_modp_1536 ∧ pk.g = 2) := by
  have hp : BN_bin2bn dh1536_p = rfc3526_modp_1536 := dh1536_p_value
  have hg : BN_bin2bn dh1536_g = 2 := by decide
  have hcreate : ∀ (lib_ok : Bool) (key : KeyArg) (pk : EVP_PKEY),
      pkey_create lib_ok key = some pk → pk.p = rfc3526_modp_1536 ∧ pk.g = 2 := by
    intro lib_ok key pk h
    cases lib_ok with
    | false => simp [pkey_create] at h
    | true =>
      simp only [pkey_create, if_true, Option.some.injEq] at h
      subst h
      exact ⟨hp, hg⟩
  refine ⟨by decide, hp, ?_, ?_, rfl, hg, hcreate, ?_⟩
  · unfold rfc3526_modp_1536; norm_num
  · rw [hp]; unfold rfc3526_modp_1536; norm_num
  · intro env params pk h1 h2
    obtain ⟨a, b⟩ := hcreate _ _ _ h1
    cases hgen : env.generated with
    | none => simp [EVP_PKEY_generate, hgen] at h2
    | some x =>
      simp only [EVP_PKEY_generate, hgen, Option.some.injEq] at h2
      subst h2
      exact ⟨a, b⟩

/-- C7: for key pairs A and B of the fixed group, with public values
`2 ^ private mod p`, each accepted by the other side's derivation, and the
library's resources available, `uc_crypto_dh_sharedkey` succeeds on
(A.private, B.public) and on (B.private, A.public) and returns the same
string. -/
theorem dh_sharedkey_symmetric (envA envB : DhEnv)
    (hA : dh_resources_ok envA) (hB : dh_resources_ok envB)
    (privA pubA privB pubB : List Byte)
    (hpubA : BN_bin2bn pubA = 2 ^ BN_bin2bn privA % rfc3526_modp_1536)
    (hpubB : BN_bin2bn pubB = 2 ^ BN_bin2bn privB % rfc3526_modp_1536)
    (haccA : derive_accepts envA (BN_bin2bn privA) (BN_bin2bn pubB))
    (haccB : derive_accepts envB (BN_bin2bn privB) (BN_bin2bn pubA)) :
    ∃ s, uc_crypto_dh_sharedkey envA (UcValue.string privA) (UcValue.string pubB)
          = some (UcValue.string s) ∧
      uc_crypto_dh_sharedkey envB (UcValue.string privB) (UcValue.string pubA)
          = some (UcValue.string s) := by
  have hz : BN_bin2bn pubA ^ BN_bin2bn privB % rfc3526_modp_1536
      = BN_bin2bn pubB ^ BN_bin2bn privA % rfc3526_modp_1536 := by
    rw [hpubA, hpubB, ← Nat.pow_mod, ← Nat.pow_mod, ← pow_mul, ← pow_mul, Nat.mul_comm]
  obtain ⟨a1, a2, a3⟩ := haccA
  obtain ⟨b1, b2, b3⟩ := haccB
  refine ⟨shared_string (BN_bin2bn pubB ^ BN_bin2bn privA % rfc3526_modp_1536), ?_, ?_⟩
  · rw [uc_crypto_dh_sharedkey_eq envA hA]
    have : ¬ (BN_bin2bn pubB ^ BN_bin2bn privA % rfc3526_modp_1536 ≤ 1 ∨
        BN_bin2bn pubB ^ BN_bin2bn privA % rfc3526_modp_1536 = rfc3526_modp_1536 - 1) := by
      intro h; rcases h with h | h
      · omega
      · exact a3 h
    simp only [a1, this, not_false_eq_true, and_self, if_true]
  · rw [uc_crypto_dh_sharedkey_eq envB hB, hz]
    have : ¬ (BN_bin2bn pubB ^ BN_bin2bn privA % rfc3526_modp_1536 ≤ 1 ∨
        BN_bin2bn pubB ^ BN_bin2bn privA % rfc3526_modp_1536 = rfc3526_modp_1536 - 1) := by
      intro h; rcases h with h | h
      · omega
      · exact a3 h
    simp only [b1, this, not_false_eq_true, and_self, if_true]

theorem dh_env_ok_resources : dh_resources_ok dh_env_ok :=
  ⟨rfl, rfl, rfl, rfl, rfl, rfl⟩

theorem dh_env_ok_peer_ok (y : Nat) (h1 : 1 < y) (h2 : y < rfc3526_modp_1536 - 1) :
    dh_env_ok.peer_ok y = true := by
  simp only [dh_env_ok, dh1536_p_value, decide_eq_true_eq]
  exact ⟨h1, h2⟩

set_option exponentiation.threshold 2000 in
/-- C7 at the private values 1 and 2, whose public values are 2 and 4: both
derivations give the shared value 4. -/
theorem dh_sharedkey_symmetric_witness :
    (BN_bin2bn [2] = 2 ^ BN_bin2bn [1] % rfc3526_modp_1536 ∧
     BN_bin2bn [4] = 2 ^ BN_bin2bn [2] % rfc3526_modp_1536 ∧
     derive_accepts dh_env_ok (BN_bin2bn [1]) (BN_bin2bn [4]) ∧
     derive_accepts dh_env_ok (BN_bin2bn [2]) (BN_bin2bn [2])) ∧
    ∃ s, uc_crypto_dh_sharedkey dh_env_ok (UcValue.string [1]) (UcValue.string [4])
          = some (UcValue.string s) ∧
      uc_crypto_dh_sharedkey dh_env_ok (UcValue.string [2]) (UcValue.string [2])
          = some (UcValue.string s) :=
  have h1 : BN_bin2bn [1] = 1 := by decide
  have h2 : BN_bin2bn [2] = 2 := by decide
  have h4 : BN_bin2bn [4] = 4 := by decide
  have e1 : BN_bin2bn [2] = 2 ^ BN_bin2bn [1] % rfc3526_modp_1536 := by
    rw [h1, h2]; unfold rfc3526_modp_1536; norm_num
  have e2 : BN_bin2bn [4] = 2 ^ BN_bin2bn [2] % rfc3526_modp_1536 := by
    rw [h4, h2]; unfold rfc3526_modp_1536; norm_num
  have a1 : derive_accepts dh_env_ok (BN_bin2bn [1]) (BN_bin2bn [4]) := by
    rw [h1, h4]
    refine ⟨dh_env_ok_peer_ok 4 (by decide) ?_, ?_, ?_⟩ <;>
      (unfold rfc3526_modp_1536; norm_num)
  have a2 : derive_accepts dh_env_ok (BN_bin2bn [2]) (BN_bin2bn [2]) := by
    rw [h2]
    refine ⟨dh_env_ok_peer_ok 2 (by decide) ?_, ?_, ?_⟩ <;>
      (unfold rfc3526_modp_1536; norm_num)
  ⟨⟨e1, e2, a1, a2⟩,
   dh_sharedkey_symmetric dh_env_ok dh_env_ok dh_env_ok_resources dh_env_ok_resources
     [1] [2] [2] [4] e1 e2 a1 a2⟩

theorem pkey_create_false (key : KeyArg) : pkey_create false key = none := rfl

theorem uc_crypto_dh_sharedkey_derive_none (env : DhEnv) (a b : EVP_PKEY)
    (h : env.ctx_ok = false ∨ env.derive_init_ok = false) :
    uc_crypto_dh_sharedkey_derive env a b = none := by
  unfold uc_crypto_dh_sharedkey_derive
  rcases h with h | h
  · simp [h]
  · by_cases h5 : env.ctx_ok = true <;> simp [h, h5]

/-- Without some resource the derivation returns `NULL`. -/
theorem uc_crypto_dh_sharedkey_none (env : DhEnv) (hres : ¬ dh_resources_ok env)
    (privp peerp : List Byte) :
    uc_crypto_dh_sharedkey env (UcValue.string privp) (UcValue.string peerp) = none := by
  unfold dh_resources_ok at hres
  cases h1 : env.bn_priv_ok
  · simp only [uc_crypto_dh_sharedkey, h1, Bool.false_eq_true, not_false_eq_true, if_true]
  cases h2 : env.pkey_priv_ok
  · simp only [uc_crypto_dh_sharedkey, h1, h2, pkey_create_false, not_true_eq_false, if_false]
  cases h3 : env.bn_peer_ok
  · simp only [uc_crypto_dh_sharedkey, h1, h2, h3, pkey_create_ok, Bool.false_eq_true,
      not_true_eq_false, not_false_eq_true, if_false, if_true]
  cases h4 : env.pkey_peer_ok
  · simp only [uc_crypto_dh_sharedkey, h1, h2, h3, h4, pkey_create_ok, pkey_create_false,
      not_true_eq_false, if_false]
  cases h5 : env.ctx_ok
  · simp only [uc_crypto_dh_sharedkey, h1, h2, h3, h4, pkey_create_ok, not_true_eq_false,
      if_false, uc_crypto_dh_sharedkey_derive_none env _ _ (Or.inl h5)]
  cases h6 : env.derive_init_ok
  · simp only [uc_crypto_dh_sharedkey, h1, h2, h3, h4, pkey_create_ok, not_true_eq_false,
      if_false, uc_crypto_dh_sharedkey_derive_none env _ _ (Or.inr h6)]
  exact absurd ⟨h1, h2, h3, h4, h5, h6⟩ hres

/-- Every string `uc_crypto_dh_sharedkey` returns has exactly 192 bytes: the
bytes of the shared value without leading zeros, followed by zero bytes. -/
theorem uc_crypto_dh_sharedkey_length (env : DhEnv) (privp peerp : List Byte) (v : UcValue)
    (h : uc_crypto_dh_sharedkey env (UcValue.string privp) (UcValue.string peerp) = some v) :
    v = UcValue.string
        (shared_string (BN_bin2bn peerp ^ BN_bin2bn privp % rfc3526_modp_1536)) ∧
    (shared_string (BN_bin2bn peerp ^ BN_bin2bn privp % rfc3526_modp_1536)).length = 192 := by
  have hpos : 0 < rfc3526_modp_1536 := by unfold rfc3526_modp_1536; norm_num
  by_cases hres : dh_resources_ok env
  · rw [uc_crypto_dh_sharedkey_eq env hres] at h
    split at h
    · simp only [Option.some.injEq] at h
      exact ⟨h.symm, shared_string_length _ (Nat.mod_lt _ hpos)⟩
    · simp at h
  · rw [uc_crypto_dh_sharedkey_none env hres] at h
    simp at h

set_option exponentiation.threshold 2000 in
/-- C8 (the code at a short shared value): with private value 1 and peer
value 4 the shared value is 4, whose encoding is the one byte 04, and
`uc_crypto_dh_sharedkey` returns 192 bytes: 04 followed by 191 zero bytes. -/
theorem dh_sharedkey_pads_short_secret :
    uc_crypto_dh_sharedkey dh_env_ok (UcValue.string [1]) (UcValue.string [4])
      = some (UcValue.string (4 :: List.replicate 191 0)) ∧
    BN_bn2bin (BN_bin2bn [4] ^ BN_bin2bn [1] % rfc3526_modp_1536) = [4] := by
  have h1 : BN_bin2bn [1] = 1 := by decide
  have h4 : BN_bin2bn [4] = 4 := by decide
  have hz : 4 ^ 1 % rfc3526_modp_1536 = 4 := by unfold rfc3526_modp_1536; norm_num
  have hp : dh_env_ok.peer_ok 4 = true :=
    dh_env_ok_peer_ok 4 (by decide) (by unfold rfc3526_modp_1536; norm_num)
  have hne : ¬ (4 ≤ 1 ∨ 4 = rfc3526_modp_1536 - 1) := by
    unfold rfc3526_modp_1536; norm_num
  have hb0 : BN_num_bytes 4 = 1 := by decide
  have hb : BN_bn2bin 4 = [4] := by decide
  have hs : shared_string 4 = 4 :: List.replicate 191 0 := by
    simp only [shared_string, hb, hb0]; rfl
  refine ⟨?_, ?_⟩
  · rw [uc_crypto_dh_sharedkey_eq dh_env_ok dh_env_ok_resources, h1, h4, hz]
    simp only [hp, hne, not_false_eq_true, and_self, if_true, hs]
  · rw [h1, h4, hz, hb]

/-! ## raw.c: receiving, interface resolution, release of the descriptor, the error slot -/

/-- C11: on an open socket `u1905_socket_recv` makes exactly one call, a
`recvfrom` asking for 1518 bytes; when the kernel delivers a frame the value is
the string of exactly the bytes delivered, as many as the kernel returned and
at most 1518, and the error slot is untouched; when the kernel reports failure
the value is `NULL` and the error slot holds the kernel's error number with the
receive-failure message; no returned string is longer than 1518 bytes. -/
theorem recv_returns_delivered_bytes (out : RecvOutcome) (w : World) (s : u1905_socket_t)
    (hopen : s.sock ≠ -1) :
    new_calls w (u1905_socket_recv out w (some s)).world = [Syscall.recvfrom s.sock 1518] ∧
    (∀ data, out = RecvOutcome.frame data →
      (u1905_socket_recv out w (some s)).value = some (UcValue.string (data.take 1518)) ∧
      (data.take 1518).length = min 1518 data.length ∧
      (u1905_socket_recv out w (some s)).world.last_error = w.last_error) ∧
    (∀ e, out = RecvOutcome.fail e →
      (u1905_socket_recv out w (some s)).value = none ∧
      (u1905_socket_recv out w (some s)).world.last_error
        = { code := e, msg := some "Failed to receive buffer contents" }) ∧
    (∀ v, (u1905_socket_recv out w (some s)).value = some (UcValue.string v) →
      v.length ≤ 1518) ∧
    (u1905_socket_recv out w (some s)).sk = some s := by
  cases out with
  | fail e =>
    simp [u1905_socket_recv, hopen, new_calls, World.call, err_return, set_error]
  | frame data =>
    simp [u1905_socket_recv, hopen, new_calls, World.call]

/-- C11 at descriptor 7 with a pending frame of three bytes. -/
theorem recv_returns_delivered_bytes_witness :
    (7 : Int) ≠ -1 ∧
    new_calls world0 (u1905_socket_recv (RecvOutcome.frame [1, 2, 3]) world0
        (some { sock := 7, ifidx := 3 })).world = [Syscall.recvfrom 7 1518] ∧
    (u1905_socket_recv (RecvOutcome.frame [1, 2, 3]) world0
        (some { sock := 7, ifidx := 3 })).value = some (UcValue.string [1, 2, 3]) :=
  have h := recv_returns_delivered_bytes (RecvOutcome.frame [1, 2, 3]) world0
    { sock := 7, ifidx := 3 } (by decide)
  ⟨by decide, h.1, (h.2.1 [1, 2, 3] rfl).1⟩

/-- C12 (the claim as stated fails): for an unprivileged process `socket()`
fails with `EPERM` before the interface name is looked at; on a name that
would not resolve `u1905_socket` returns `NULL` with the socket-creation error
in the slot, and `if_nametoindex` is never called. -/
theorem open_unresolved_name_reports_socket_error :
    env_no_permission.ifindex = 0 ∧
    (u1905_socket env_no_permission world0 (UcValue.string [110, 111, 112, 101, 48])
      (UcValue.integer 0x893a)).2 = none ∧
    (u1905_socket env_no_permission world0 (UcValue.string [110, 111, 112, 101, 48])
      (UcValue.integer 0x893a)).1.last_error
        = { code := 1, msg := some "Unable to create raw packet socket" } ∧
    (u1905_socket env_no_permission world0 (UcValue.string [110, 111, 112, 101, 48])
      (UcValue.integer 0x893a)).1.last_error.msg
        ≠ some "Unable to resolve interface index" ∧
    (u1905_socket env_no_permission world0 (UcValue.string [110, 111, 112, 101, 48])
      (UcValue.integer 0x893a)).1.trace = [Syscall.socket (htons 0x893a)] := by
  decide

/-- C12 (amended): when `if_nametoindex` answers 0, `u1905_socket` returns
`NULL` for every ether type.  The socket is created and configured before the
name is resolved.  When `socket()`, the two `fcntl` calls and `SO_REUSEADDR`
all succeed, the name is resolved once, the descriptor is closed once after
it, and the error reported is the interface-resolution failure: the slot holds
"Unable to resolve interface index", with the error number `if_nametoindex`
stored when `close()` succeeds.  When one of those earlier steps fails, the
name is never resolved and the error reported is that of the first failing
step: the socket-creation message with the error number of `socket()`; or,
after one `close` of the descriptor, the flags message (for either `fcntl`) or
the `SO_REUSEADDR` message, with the failing call's error number when
`close()` succeeds. -/
theorem open_unresolved_name (env : SocketEnv) (w : World) (name : List Byte)
    (proto : UcValue) (pr : Int) (hp : proto_arg proto = some pr) (h0 : env.ifindex = 0) :
    (u1905_socket env w (UcValue.string name) proto).2 = none ∧
    (before_resolve_ok env →
      new_calls w (u1905_socket env w (UcValue.string name) proto).1
        = [Syscall.socket (htons pr), Syscall.fcntl_getfl env.socket.ret,
           Syscall.fcntl_setfl_nonblock env.socket.ret env.getfl.ret,
           Syscall.setsockopt_reuseaddr env.socket.ret, Syscall.if_nametoindex (cstr name),
           Syscall.close env.socket.ret] ∧
      (u1905_socket env w (UcValue.string name) proto).1.last_error.msg
        = some "Unable to resolve interface index" ∧
      (env.close.ret ≠ -1 →
        (u1905_socket env w (UcValue.string name) proto).1.last_error.code
          = env.ifindex_err)) ∧
    (¬ before_resolve_ok env →
      (∀ n, Syscall.if_nametoindex n ∉
        new_calls w (u1905_socket env w (UcValue.string name) proto).1) ∧
      (u1905_socket env w (UcValue.string name) proto).1.last_error.msg
        ≠ some "Unable to resolve interface index") ∧
    (env.socket.ret = -1 →
      new_calls w (u1905_socket env w (UcValue.string name) proto).1
        = [Syscall.socket (htons pr)] ∧
      (u1905_socket env w (UcValue.string name) proto).1.last_error
        = { code := env.socket.err, msg := some "Unable to create raw packet socket" }) ∧
    (env.socket.ret ≠ -1 → env.getfl.ret = -1 →
      new_calls w (u1905_socket env w (UcValue.string name) proto).1
        = [Syscall.socket (htons pr), Syscall.fcntl_getfl env.socket.ret,
           Syscall.close env.socket.ret] ∧
      (u1905_socket env w (UcValue.string name) proto).1.last_error.msg
        = some "Unable to set socket flags" ∧
      (env.close.ret ≠ -1 →
        (u1905_socket env w (UcValue.string name) proto).1.last_error.code
          = env.getfl.err)) ∧
    (env.socket.ret ≠ -1 → env.getfl.ret ≠ -1 → env.setfl.ret = -1 →
      new_calls w (u1905_socket env w (UcValue.string name) proto).1
        = [Syscall.socket (htons pr), Syscall.fcntl_getfl env.socket.ret,
           Syscall.fcntl_setfl_nonblock env.socket.ret env.getfl.ret,
           Syscall.close env.socket.ret] ∧
      (u1905_socket env w (UcValue.string name) proto).1.last_error.msg
        = some "Unable to set socket flags" ∧
      (env.close.ret ≠ -1 →
        (u1905_socket env w (UcValue.string name) proto).1.last_error.code
          = env.setfl.err)) ∧
    (env.socket.ret ≠ -1 → env.getfl.ret ≠ -1 → env.setfl.ret ≠ -1 →
        env.reuseaddr.ret = -1 →
      new_calls w (u1905_socket env w (UcValue.string name) proto).1
        = [Syscall.socket (htons pr), Syscall.fcntl_getfl env.socket.ret,
           Syscall.fcntl_setfl_nonblock env.socket.ret env.getfl.ret,
           Syscall.setsockopt_reuseaddr env.socket.ret, Syscall.close env.socket.ret] ∧
      (u1905_socket env w (UcValue.string name) proto).1.last_error.msg
        = some "Unable to set SO_REUSEADDR socket option" ∧
      (env.close.ret ≠ -1 →
        (u1905_socket env w (UcValue.string name) proto).1.last_error.code
          = env.reuseaddr.err)) := by
  simp only [u1905_socket, hp]
  unfold u1905_socket_setup close_err_return before_resolve_ok new_calls
  by_cases h1 : env.socket.ret = -1
  · simp [World.call, set_error, h1]
  by_cases h2 : env.getfl.ret = -1
  · simp [World.call, set_error, h1, h2]
    intro hc
    simp [hc]
  by_cases h3 : env.setfl.ret = -1
  · simp [World.call, set_error, h1, h2, h3]
    intro hc
    simp [hc]
  by_cases h4 : env.reuseaddr.ret = -1
  · simp [World.call, set_error, h1, h2, h3, h4]
    intro hc
    simp [hc]
  simp [World.call, World.call_nametoindex, set_error, h0, h1, h2, h3, h4]
  intro hc
  simp [hc]

/-- C12 (amended) on the name "nope0" with the discovery ether type, every step
before the resolution succeeding: the name is resolved, descriptor 7 is closed,
and the slot holds `ENODEV` with the resolution message. -/
theorem open_unresolved_name_witness :
    (proto_arg (UcValue.integer 0x893a) = some 0x893a ∧ env_no_interface.ifindex = 0 ∧
      before_resolve_ok env_no_interface ∧ env_no_interface.close.ret ≠ -1) ∧
    (u1905_socket env_no_interface world0 (UcValue.string [110, 111, 112, 101, 48])
      (UcValue.integer 0x893a)).2 = none ∧
    new_calls world0
      (u1905_socket env_no_interface world0 (UcValue.string [110, 111, 112, 101, 48])
        (UcValue.integer 0x893a)).1
      = [Syscall.socket (htons 0x893a), Syscall.fcntl_getfl 7,
         Syscall.fcntl_setfl_nonblock 7 2, Syscall.setsockopt_reuseaddr 7,
         Syscall.if_nametoindex [110, 111, 112, 101, 48], Syscall.close 7] ∧
    (u1905_socket env_no_interface world0 (UcValue.string [110, 111, 112, 101, 48])
      (UcValue.integer 0x893a)).1.last_error
        = { code := 19, msg := some "Unable to resolve interface index" } :=
  have hb : before_resolve_ok env_no_interface := by unfold before_resolve_ok; decide
  have h := open_unresolved_name env_no_interface world0 [110, 111, 112, 101, 48]
    (UcValue.integer 0x893a) 0x893a (by decide) (by decide)
  ⟨⟨by decide, by decide, hb, by decide⟩, h.1, (h.2.1 hb).1, by decide⟩

theorem closed_fds_append (a b : List Syscall) :
    closed_fds (a ++ b) = closed_fds a ++ closed_fds b := by
  induction a with
  | nil => rfl
  | cons c rest ih => cases c <;> simp [closed_fds, ih]

/-- A method on a closed handle changes neither the trace nor the handle. -/
theorem sock_step_closed (ether_aton : List Byte → Option (List Byte)) (w : World)
    (ifidx : Nat) (op : SockOp) :
    (sock_step ether_aton w (some { sock := -1, ifidx := ifidx }) op).world.trace = w.trace ∧
    (sock_step ether_aton w (some { sock := -1, ifidx := ifidx }) op).sk
      = some { sock := -1, ifidx := ifidx } := by
  cases op <;>
    simp [sock_step, u1905_socket_fileno, u1905_socket_send, u1905_socket_recv,
      u1905_socket_close, err_return, set_error]

/-- Methods on a closed handle make no call and leave it closed. -/
theorem sock_run_closed (ether_aton : List Byte → Option (List Byte)) (ops : List SockOp)
    (w : World) (ifidx : Nat) :
    (sock_run ether_aton w (some { sock := -1, ifidx := ifidx }) ops).1.trace = w.trace ∧
    (sock_run ether_aton w (some { sock := -1, ifidx := ifidx }) ops).2
      = some { sock := -1, ifidx := ifidx } := by
  induction ops generalizing w with
  | nil => exact ⟨rfl, rfl⟩
  | cons op rest ih =>
    obtain ⟨h1, h2⟩ := sock_step_closed ether_aton w ifidx op
    simp only [sock_run, h2]
    obtain ⟨i1, i2⟩ := ih (sock_step ether_aton w (some { sock := -1, ifidx := ifidx }) op).world
    exact ⟨i1.trans h1, i2⟩

/-- A method other than `close` on an open handle closes nothing and leaves
the handle as it is; `close` issues the one `close(fd)` and marks the handle. -/
theorem sock_step_open (ether_aton : List Byte → Option (List Byte)) (w : World)
    (fd : Int) (ifidx : Nat) (hfd : fd ≠ -1) (op : SockOp) :
    ∃ cs, (sock_step ether_aton w (some { sock := fd, ifidx := ifidx }) op).world.trace
        = w.trace ++ cs ∧
      ((has_close [op] = true ∧ cs = [Syscall.close fd] ∧
        (sock_step ether_aton w (some { sock := fd, ifidx := ifidx }) op).sk
          = some { sock := -1, ifidx := ifidx }) ∨
       (has_close [op] = false ∧ closed_fds cs = [] ∧
        (sock_step ether_aton w (some { sock := fd, ifidx := ifidx }) op).sk
          = some { sock := fd, ifidx := ifidx })) := by
  cases op with
  | fileno =>
    exact ⟨[], by simp [sock_step, u1905_socket_fileno, hfd, has_close, closed_fds]⟩
  | send out dstmac buffer =>
    cases dstmac with
    | string m =>
      cases hm : ether_aton (cstr m) with
      | none =>
        exact ⟨[], by
          simp [sock_step, u1905_socket_send, hfd, hm, err_return, set_error, has_close,
            closed_fds]⟩
      | some dst =>
        cases buffer with
        | string data =>
          refine ⟨[Syscall.sendto fd data ifidx ETH_ALEN (dst.take ETH_ALEN)], ?_⟩
          by_cases ho : out.ret = -1 <;>
            simp [sock_step, u1905_socket_send, hfd, hm, ho, err_return, set_error,
              World.call, has_close, closed_fds]
        | _ =>
          exact ⟨[], by
            simp [sock_step, u1905_socket_send, hfd, hm, err_return, set_error, has_close,
              closed_fds]⟩
    | _ =>
      exact ⟨[], by
        simp [sock_step, u1905_socket_send, hfd, err_return, set_error, has_close,
          closed_fds]⟩
  | recv out =>
    refine ⟨[Syscall.recvfrom fd 1518], ?_⟩
    cases out <;>
      simp [sock_step, u1905_socket_recv, hfd, err_return, set_error, World.call, has_close,
        closed_fds]
  | close out =>
    exact ⟨[Syscall.close fd], by
      simp [sock_step, u1905_socket_close, hfd, World.call, has_close]⟩

theorem has_close_cons (op : SockOp) (rest : List SockOp) :
    has_close (op :: rest) = (has_close [op] || has_close rest) := by
  cases op <;> simp [has_close]

/-- The closes made by a sequence of methods on an open handle: none while no
`close` occurs, the one `close(fd)` of the first `close` otherwise. -/
theorem sock_run_open (ether_aton : List Byte → Option (List Byte)) (ops : List SockOp)
    (w : World) (fd : Int) (ifidx : Nat) (hfd : fd ≠ -1) :
    ∃ cs, (sock_run ether_aton w (some { sock := fd, ifidx := ifidx }) ops).1.trace
        = w.trace ++ cs ∧
      ((has_close ops = true ∧ closed_fds cs = [fd] ∧
        (sock_run ether_aton w (some { sock := fd, ifidx := ifidx }) ops).2
          = some { sock := -1, ifidx := ifidx }) ∨
       (has_close ops = false ∧ closed_fds cs = [] ∧
        (sock_run ether_aton w (some { sock := fd, ifidx := ifidx }) ops).2
          = some { sock := fd, ifidx := ifidx })) := by
  induction ops generalizing w with
  | nil => exact ⟨[], by simp [sock_run, has_close, closed_fds]⟩
  | cons op rest ih =>
    obtain ⟨cs, ht, hcase⟩ := sock_step_open ether_aton w fd ifidx hfd op
    rcases hcase with ⟨hc, hcs, hsk⟩ | ⟨hc, hcs, hsk⟩
    · obtain ⟨r1, r2⟩ := sock_run_closed ether_aton rest
        (sock_step ether_aton w (some { sock := fd, ifidx := ifidx }) op).world ifidx
      refine ⟨cs, ?_, Or.inl ⟨?_, ?_, ?_⟩⟩
      · simp only [sock_run, hsk]; rw [r1, ht]
      · rw [has_close_cons, hc]; rfl
      · rw [hcs]; rfl
      · simp only [sock_run, hsk]; exact r2
    · obtain ⟨cs2, it, icase⟩ := ih
        (sock_step ether_aton w (some { sock := fd, ifidx := ifidx }) op).world
      refine ⟨cs ++ cs2, ?_, ?_⟩
      · simp only [sock_run, hsk]; rw [it, ht, List.append_assoc]
      · rw [has_close_cons, hc, closed_fds_append, hcs]
        simp only [sock_run, hsk, Bool.false_or, List.nil_append]
        exact icase

/-- C13: after a successful `u1905_socket` that returned the resource of
descriptor `fd`, any sequence of fileno, send, recv and close calls on the
handle followed by the finalizer `free_sock` issues exactly one `close(fd)`:
by the first `close` when the sequence has one (the finalizer then closes -1,
not `fd`), else by the finalizer; the open itself closes nothing. -/
theorem descriptor_released_once (env : SocketEnv) (w : World) (ifname proto : UcValue)
    (fd : Int) (ifidx : Nat)
    (hopen : (u1905_socket env w ifname proto).2 = some (UcValue.resource fd ifidx))
    (ether_aton : List Byte → Option (List Byte)) (ops : List SockOp) (fin : KResult) :
    fd ≠ -1 ∧
    closed_fds (new_calls w
      (finalize fin
        (sock_run ether_aton (u1905_socket env w ifname proto).1
          (some { sock := fd, ifidx := ifidx }) ops).1
        (sock_run ether_aton (u1905_socket env w ifname proto).1
          (some { sock := fd, ifidx := ifidx }) ops).2))
      = (if has_close ops = true then [fd, -1] else [fd]) ∧
    (closed_fds (new_calls w
      (finalize fin
        (sock_run ether_aton (u1905_socket env w ifname proto).1
          (some { sock := fd, ifidx := ifidx }) ops).1
        (sock_run ether_aton (u1905_socket env w ifname proto).1
          (some { sock := fd, ifidx := ifidx }) ops).2))).count fd = 1 := by
  have hfd : fd ≠ -1 ∧ (u1905_socket env w ifname proto).1.trace
      = w.trace ++ new_calls w (u1905_socket env w ifname proto).1 ∧
      closed_fds (new_calls w (u1905_socket env w ifname proto).1) = [] := by
    cases ifname with
    | string name =>
      cases hp : proto_arg proto with
      | none => simp [u1905_socket, hp] at hopen
      | some pr =>
        simp only [u1905_socket, hp] at hopen ⊢
        obtain ⟨k1, _, k3, _, _⟩ := u1905_socket_setup_calls env w name pr
        obtain ⟨a, b, _, d⟩ := k3 _ hopen
        simp only [UcValue.resource.injEq] at a
        exact ⟨a.1 ▸ b, k1, d⟩
    | _ => simp [u1905_socket] at hopen
  obtain ⟨h1, h2, h3⟩ := hfd
  obtain ⟨cs, ht, hcase⟩ := sock_run_open ether_aton ops (u1905_socket env w ifname proto).1
    fd ifidx h1
  have key : closed_fds (new_calls w
      (finalize fin
        (sock_run ether_aton (u1905_socket env w ifname proto).1
          (some { sock := fd, ifidx := ifidx }) ops).1
        (sock_run ether_aton (u1905_socket env w ifname proto).1
          (some { sock := fd, ifidx := ifidx }) ops).2))
      = (if has_close ops = true then [fd, -1] else [fd]) := by
    rcases hcase with ⟨hc, hcs, hsk⟩ | ⟨hc, hcs, hsk⟩
    · rw [hsk, hc]
      rw [new_calls_append w _ (new_calls w (u1905_socket env w ifname proto).1 ++ cs
        ++ [Syscall.close (-1)]) (by
          simp only [finalize, free_sock, World.call, ht]
          rw [h2]
          simp [new_calls])]
      simp [closed_fds_append, h3, hcs, closed_fds]
    · rw [hsk, hc]
      rw [new_calls_append w _ (new_calls w (u1905_socket env w ifname proto).1 ++ cs
        ++ [Syscall.close fd]) (by
          simp only [finalize, free_sock, World.call, ht]
          rw [h2]
          simp [new_calls])]
      simp [closed_fds_append, h3, hcs, closed_fds]
  refine ⟨h1, key, ?_⟩
  rw [key]
  by_cases hc : has_close ops = true
  · simp [hc, List.count_cons, Ne.symm h1]
  · simp [hc]

/-- C13 on interface "eth0": open, receive, close, fileno, close again, then
the finalizer: descriptor 7 is closed once, the finalizer closes -1. -/
theorem descriptor_released_once_witness :
    (u1905_socket env_all_ok world0 (UcValue.string [101, 116, 104, 48])
      (UcValue.integer 0x893a)).2 = some (UcValue.resource 7 3) ∧
    closed_fds (new_calls world0
      (finalize { ret := -1, err := 9 }
        (sock_run ether_aton_glibc
          (u1905_socket env_all_ok world0 (UcValue.string [101, 116, 104, 48])
            (UcValue.integer 0x893a)).1
          (some { sock := 7, ifidx := 3 })
          [SockOp.recv (RecvOutcome.frame [1]), SockOp.close { ret := 0, err := 0 },
           SockOp.fileno, SockOp.close { ret := 0, err := 0 }]).1
        (sock_run ether_aton_glibc
          (u1905_socket env_all_ok world0 (UcValue.string [101, 116, 104, 48])
            (UcValue.integer 0x893a)).1
          (some { sock := 7, ifidx := 3 })
          [SockOp.recv (RecvOutcome.frame [1]), SockOp.close { ret := 0, err := 0 },
           SockOp.fileno, SockOp.close { ret := 0, err := 0 }]).2))
      = (if has_close [SockOp.recv (RecvOutcome.frame [1]), SockOp.close { ret := 0, err := 0 },
           SockOp.fileno, SockOp.close { ret := 0, err := 0 }] = true then [7, -1] else [7]) :=
  ⟨by decide,
   (descriptor_released_once env_all_ok world0 (UcValue.string [101, 116, 104, 48])
     (UcValue.integer 0x893a) 7 3 (by decide) ether_aton_glibc
     [SockOp.recv (RecvOutcome.frame [1]), SockOp.close { ret := 0, err := 0 },
      SockOp.fileno, SockOp.close { ret := 0, err := 0 }] { ret := -1, err := 9 }).2.1⟩

theorem BN_bin2bn_append (a : List Byte) (b : Byte) :
    BN_bin2bn (a ++ [b]) = BN_bin2bn a * 256 + b.val := by
  simp [BN_bin2bn, List.foldl_append]

/-- Reading back the `len` low-order digits gives the number modulo `256 ^ len`. -/
theorem BN_bin2bn_bn2binpad (len n : Nat) : BN_bin2bn (BN_bn2binpad len n) = n % 256 ^ len := by
  induction len generalizing n with
  | zero => simp [BN_bn2binpad, BN_bin2bn, Nat.mod_one]
  | succ len ih =>
    have hv : (Fin.ofNat (n % 256) : Byte).val = n % 256 := by
      show n % 256 % 256 = n % 256
      omega
    rw [BN_bn2binpad, BN_bin2bn_append, ih, hv, Nat.pow_succ', Nat.mod_mul]
    omega

/-- The bytes of `BN_bn2bin` denote the number. -/
theorem BN_bin2bn_bn2bin (n : Nat) : BN_bin2bn (BN_bn2bin n) = n := by
  rw [BN_bn2bin, BN_bin2bn_bn2binpad]
  exact Nat.mod_eq_of_lt (BN_num_bytes_spec n).1

theorem BN_bn2binpad_head (k n : Nat) :
    (BN_bn2binpad (k + 1) n).head? = some (Fin.ofNat (n / 256 ^ k % 256)) := by
  induction k generalizing n with
  | zero => simp [BN_bn2binpad]
  | succ k ih =>
    rw [BN_bn2binpad, List.head?_append, ih]
    simp only [Option.or]
    rw [Nat.div_div_eq_div_mul, Nat.pow_succ, Nat.mul_comm]

/-- The first byte of `BN_bn2bin` is not zero: the encoding is not padded. -/
theorem BN_bn2bin_head_ne_zero (n : Nat) (b : Byte) (rest : List Byte)
    (h : BN_bn2bin n = b :: rest) : b ≠ 0 := by
  have hn : n ≠ 0 := by
    intro h0
    subst h0
    simp [BN_bn2bin, BN_num_bytes, num_bytes_steps_zero, BN_bn2binpad] at h
  obtain ⟨h1, h2⟩ := BN_num_bytes_spec n
  have h3 := h2 hn
  have hk : BN_num_bytes n ≠ 0 := by
    intro h0
    rw [h0] at h1
    simp at h1
    exact hn h1
  obtain ⟨k, hk1⟩ := Nat.exists_eq_succ_of_ne_zero hk
  rw [BN_bn2bin, hk1] at h
  have hh := BN_bn2binpad_head k n
  rw [h] at hh
  simp only [List.head?_cons, Option.some.injEq] at hh
  rw [hk1] at h1 h3
  simp only [Nat.succ_eq_add_one, Nat.add_sub_cancel] at h3
  have hpos : 0 < 256 ^ k := Nat.pow_pos (by decide)
  have hq1 : 1 ≤ n / 256 ^ k := (Nat.le_div_iff_mul_le hpos).mpr (by omega)
  have hq2 : n / 256 ^ k < 256 := by
    rw [Nat.div_lt_iff_lt_mul hpos]
    rw [Nat.pow_succ] at h1
    omega
  intro hb
  rw [hb] at hh
  have : (0 : Byte).val = (Fin.ofNat (n / 256 ^ k % 256) : Byte).val := by rw [hh]
  have hv : (Fin.ofNat (n / 256 ^ k % 256) : Byte).val = n / 256 ^ k % 256 % 256 := rfl
  rw [hv] at this
  simp at this
  omega

theorem pkey_get_key_some (bn : Nat) : pkey_get_key (some bn) = some (BN_bn2bin bn) := by
  simp only [pkey_get_key]
  rw [List.take_of_length_le (by rw [BN_bn2bin_length])]

theorem pkey_get_key_none : pkey_get_key none = none := rfl

/-- The steps of `uc_crypto_dh_keypair` after the parameters were built, for a
parameter object over modulus `P` and generator `g`. -/
theorem uc_crypto_dh_keypair_steps (env : KeygenEnv) (P g : Nat) (x : Nat)
    (h2 : env.ctx_ok = true) (h3 : env.keygen_init_ok = true) (h4 : env.generated = some x)
    (h5 : env.priv_readable = true) (h6 : env.pub_readable = true) :
    (if ¬ env.ctx_ok = true then none
      else if ¬ env.keygen_init_ok = true then none
      else
        match EVP_PKEY_generate
            { p := P, g := g, priv_key := none, pub_key := none } env.generated with
        | none => none
        | some pkey =>
          match pkey_get_key (if env.priv_readable = true then pkey.priv_key else none) with
          | none => none
          | some privkey =>
            match pkey_get_key (if env.pub_readable = true then pkey.pub_key else none) with
            | none => none
            | some pubkey => some (UcValue.array [privkey, pubkey]))
      = some (UcValue.array [BN_bn2bin x, BN_bn2bin (g ^ x % P)]) := by
  simp only [h2, h3, h4, h5, h6, EVP_PKEY_generate, pkey_get_key_some, mod_exp_eq,
    not_true_eq_false, if_false, if_true]

/-- Function `uc_crypto_dh_keypair` when every step succeeds, the library
drawing the private value `x`. -/
theorem uc_crypto_dh_keypair_ok (env : KeygenEnv) (x : Nat)
    (h1 : env.pkey_ok = true) (h2 : env.ctx_ok = true) (h3 : env.keygen_init_ok = true)
    (h4 : env.generated = some x) (h5 : env.priv_readable = true)
    (h6 : env.pub_readable = true) :
    uc_crypto_dh_keypair env
      = some (UcValue.array [BN_bn2bin x, BN_bn2bin (2 ^ x % rfc3526_modp_1536)]) := by
  unfold uc_crypto_dh_keypair
  rw [h1, pkey_create_ok]
  exact uc_crypto_dh_keypair_steps env rfc3526_modp_1536 2 x h2 h3 h4 h5 h6

/-- Function `uc_crypto_dh_keypair` when some step fails. -/
theorem uc_crypto_dh_keypair_fail (env : KeygenEnv) (h : ¬ keygen_ok env) :
    uc_crypto_dh_keypair env = none := by
  unfold keygen_ok at h
  unfold uc_crypto_dh_keypair
  cases h1 : env.pkey_ok
  · rw [pkey_create_false]
  rw [pkey_create_ok]
  cases h2 : env.ctx_ok
  · simp
  cases h3 : env.keygen_init_ok
  · simp
  cases h4 : env.generated with
  | none => simp [EVP_PKEY_generate]
  | some x =>
    cases h5 : env.priv_readable
    · simp [EVP_PKEY_generate, pkey_get_key_none]
    cases h6 : env.pub_readable
    · simp [EVP_PKEY_generate, pkey_get_key_none, pkey_get_key_some]
    exact absurd ⟨h1, h2, h3, by simp [h4], h5, h6⟩ h

/-- C14: whatever the library answers, `uc_crypto_dh_keypair` returns `NULL`
when a step fails (parameters, context, initialisation, generation, reading
either key) and otherwise an array of exactly two strings, the private value
first and the public value `2 ^ private mod p` second, each in the big-endian
encoding without leading zero byte; no other value, in particular no array
with one key, is returned. -/
theorem dh_keypair_all_or_nothing (env : KeygenEnv) :
    ((¬ keygen_ok env ∧ uc_crypto_dh_keypair env = none) ∨
     (keygen_ok env ∧ ∃ x, env.generated = some x ∧
        uc_crypto_dh_keypair env
          = some (UcValue.array [BN_bn2bin x, BN_bn2bin (2 ^ x % rfc3526_modp_1536)]))) ∧
    (∀ v, uc_crypto_dh_keypair env = some v →
      ∃ priv pub, v = UcValue.array [priv, pub] ∧
        env.generated = some (BN_bin2bn priv) ∧
        BN_bin2bn pub = 2 ^ BN_bin2bn priv % rfc3526_modp_1536 ∧
        priv.head? ≠ some 0 ∧ pub.head? ≠ some 0) := by
  have hhead : ∀ n : Nat, (BN_bn2bin n).head? ≠ some 0 := by
    intro n hn
    cases hb : BN_bn2bin n with
    | nil => rw [hb] at hn; simp at hn
    | cons b rest =>
      rw [hb] at hn
      simp only [List.head?_cons, Option.some.injEq] at hn
      exact BN_bn2bin_head_ne_zero n b rest hb hn
  by_cases hok : keygen_ok env
  · obtain ⟨h1, h2, h3, h4, h5, h6⟩ := hok
    obtain ⟨x, hx⟩ := Option.ne_none_iff_exists'.mp h4
    have he := uc_crypto_dh_keypair_ok env x h1 h2 h3 hx h5 h6
    refine ⟨Or.inr ⟨⟨h1, h2, h3, h4, h5, h6⟩, x, hx, he⟩, ?_⟩
    intro v hv
    rw [he] at hv
    simp only [Option.some.injEq] at hv
    refine ⟨_, _, hv.symm, ?_, ?_, hhead _, hhead _⟩
    · rw [BN_bin2bn_bn2bin]; exact hx
    · rw [BN_bin2bn_bn2bin, BN_bin2bn_bn2bin]
  · have he := uc_crypto_dh_keypair_fail env hok
    refine ⟨Or.inl ⟨hok, he⟩, ?_⟩
    intro v hv
    rw [he] at hv
    simp at hv

/-! ## crypto.c: the digest -/

theorem sha256_length (msg : List Byte) : (sha256 msg).length = 32 := by
  simp [sha256, sha256_bytes, BN_bn2binpad_length]

set_option maxRecDepth 1000000 in
/-- The digest of the empty string, FIPS 180-4 example values. -/
theorem sha256_empty :
    sha256 [] =
      [0xe3, 0xb0, 0xc4, 0x42, 0x98, 0xfc, 0x1c, 0x14, 0x9a, 0xfb, 0xf4, 0xc8, 0x99, 0x6f, 0xb9,
       0x24, 0x27, 0xae, 0x41, 0xe4, 0x64, 0x9b, 0x93, 0x4c, 0xa4, 0x95, 0x99, 0x1b, 0x78, 0x52,
       0xb8, 0x55] := by
  decide

set_option maxRecDepth 1000000 in
/-- The digest of "abc", the one-block example of FIPS 180-4. -/
theorem sha256_abc :
    sha256 [0x61, 0x62, 0x63] =
      [0xba, 0x78, 0x16, 0xbf, 0x8f, 0x01, 0xcf, 0xea, 0x41, 0x41, 0x40, 0xde, 0x5d, 0xae, 0x22,
       0x23, 0xb0, 0x03, 0x61, 0xa3, 0x96, 0x17, 0x7a, 0x9c, 0xb4, 0x10, 0xff, 0x61, 0xf2, 0x00,
       0x15, 0xad] := by
  decide

theorem to_int_of_length (n : Nat) (h : n ≤ 2147483647) : to_int (n : Int) = (n : Int) := by
  unfold to_int
  omega

/-- Within the range of `int inputlen` (at most 2147483647 bytes), and when the
digest calls find their resources, `uc_crypto_sha256` returns the digest of the
whole string. -/
theorem uc_crypto_sha256_ok (env : MdEnv) (henv : md_ok env) (s : List Byte)
    (hlen : s.length ≤ 2147483647) :
    uc_crypto_sha256 env (UcValue.string s) =
      DigestRet.ret (some (UcValue.string (sha256 s))) := by
  obtain ⟨h1, h2, h3, h4⟩ := henv
  have hl : (sha256 s).length ≤ SHA256_DIGEST_LENGTH := by
    rw [sha256_length]; decide
  simp [uc_crypto_sha256, h1, h2, h3, h4, to_int_of_length s.length hlen,
    List.take_of_length_le hl]

/-- What `uc_crypto_sha256` does with a string when the digest calls find their
resources: the count it hands to the library is the length read as an `int`. -/
theorem uc_crypto_sha256_narrowed (env : MdEnv) (henv : md_ok env) (s : List Byte) :
    uc_crypto_sha256 env (UcValue.string s) =
      if to_int (s.length : Int) < 0 then DigestRet.fault
      else DigestRet.ret (some (UcValue.string
        (sha256 (s.take (to_int (s.length : Int)).toNat)))) := by
  obtain ⟨h1, h2, h3, h4⟩ := henv
  have hl : ∀ m, (sha256 m).length ≤ SHA256_DIGEST_LENGTH := by
    intro m; rw [sha256_length]; decide
  simp only [uc_crypto_sha256, h1, h2, h3, h4, not_true_eq_false, if_false,
    List.take_of_length_le (hl _)]

/-- A string of 2^32 bytes more than `a` is hashed as `a`. -/
theorem uc_crypto_sha256_prefix (env : MdEnv) (henv : md_ok env) (a b : List Byte)
    (ha : a.length ≤ 2147483647) (hb : b.length = 4294967296) :
    uc_crypto_sha256 env (UcValue.string (a ++ b)) =
      uc_crypto_sha256 env (UcValue.string a) := by
  have e1 : to_int ((a ++ b).length : Int) = (a.length : Int) := by
    rw [List.length_append, hb]; unfold to_int; push_cast; omega
  have e2 : to_int (a.length : Int) = (a.length : Int) := to_int_of_length _ ha
  rw [uc_crypto_sha256_narrowed env henv, uc_crypto_sha256_narrowed env henv, e1, e2]
  simp only [Int.toNat_ofNat, List.take_left, List.take_length]

/-- A value that is not a string gives `NULL`, whatever the library answers. -/
theorem uc_crypto_sha256_not_string (env : MdEnv) (v : UcValue)
    (hv : ∀ t, v ≠ UcValue.string t) : uc_crypto_sha256 env v = DigestRet.ret none := by
  cases v with
  | string t => exact absurd rfl (hv t)
  | _ => rfl

/-- C15 (the code fails the claim on long strings): `uc_crypto_sha256` keeps the
length of the string in `int inputlen`.  On a string of 2147483648 zero bytes
`inputlen` is negative and `EVP_DigestUpdate` is handed a count that reaches
past the end of the string: no digest is returned.  On the string "abc"
followed by 4294967296 zero bytes `inputlen` is 3 and the function returns what
it returns for "abc" alone, the digest ba7816bf 8f01cfea 414140de 5dae2223
b00361a3 96177a9c b410ff61 f20015ad, which is the digest of the first three
bytes and not of the string. -/
theorem sha256_length_narrowed_to_int :
    uc_crypto_sha256 md_env_ok (UcValue.string (List.replicate 2147483648 0))
      = DigestRet.fault ∧
    uc_crypto_sha256 md_env_ok
        (UcValue.string ([0x61, 0x62, 0x63] ++ List.replicate 4294967296 0))
      = uc_crypto_sha256 md_env_ok (UcValue.string [0x61, 0x62, 0x63]) ∧
    uc_crypto_sha256 md_env_ok (UcValue.string [0x61, 0x62, 0x63])
      = DigestRet.ret (some (UcValue.string
          [0xba, 0x78, 0x16, 0xbf, 0x8f, 0x01, 0xcf, 0xea, 0x41, 0x41, 0x40, 0xde, 0x5d, 0xae,
           0x22, 0x23, 0xb0, 0x03, 0x61, 0xa3, 0x96, 0x17, 0x7a, 0x9c, 0xb4, 0x10, 0xff, 0x61,
           0xf2, 0x00, 0x15, 0xad])) := by
  have hok : md_ok md_env_ok := by unfold md_ok; decide
  refine ⟨?_, ?_, ?_⟩
  · have e : to_int (((List.replicate 2147483648 (0 : Byte)).length : Nat) : Int)
        = -2147483648 := by
      rw [List.length_replicate]; unfold to_int; norm_num
    rw [uc_crypto_sha256_narrowed md_env_ok hok, e]
    rfl
  · exact uc_crypto_sha256_prefix md_env_ok hok _ _ (by decide) (List.length_replicate _ _)
  · rw [uc_crypto_sha256_ok md_env_ok hok _ (by decide), sha256_abc]

end U1905
